import Mathlib

/-!
Verification of the MOEX ISS client (deffgod/stocks).

Shallow embedding of the response-parsing pipeline (`parsers.py`), the date
utilities (`utils.py`), the HTTP status handling of `MoexApiClient._make_request`
(`client.py`), and the endpoint helpers (`endpoints.py`).

Python values coming out of `json.loads` are modelled by `PyVal`; Python
exceptions by `PyExc`; fallible Python functions by `Except PyExc`.
-/

set_option maxRecDepth 4000

/-- Model of the Python exceptions that can arise in the code under study.
The Moex* constructors model the exception classes of `exceptions.py`
(all of which derive from `MoexApiError`); only the payloads the code or the
spec observe are kept (message, status code, retry-after). -/
inductive PyExc where
  | attributeError (msg : String)
  | typeError (msg : String)
  | keyError (msg : String)
  | valueError (msg : String)
  | moexParsingError (msg : String)
  | moexConnectionError (msg : String)
  | moexAuthError (msg : String) (statusCode : Nat)
  | moexResponseError (msg : String) (statusCode : Nat)
  | moexRateLimitError (msg : String) (statusCode : Nat) (retryAfter : Int)
  deriving DecidableEq, Repr

/-- Python values as delivered by `json.loads` plus the pandas timestamp values
produced by the normalization model.  JSON booleans/floats are not needed by any
claim; scalars are covered by `vInt`/`vStr`/`vNull`, which behave identically for
every operation modelled here (hashable, no `len`, not iterable). -/
inductive PyVal where
  | vNull
  | vInt (n : Int)
  | vStr (s : String)
  | vDate (y m d : Nat)
  | vList (xs : List PyVal)
  | vDict (entries : List (String × PyVal))

/-- The hashable Python values that can serve as keys of a row dictionary
(`dict(zip(columns, row))`).  Lists and dicts are unhashable. -/
inductive PyKey where
  | kNull
  | kInt (n : Int)
  | kStr (s : String)
  | kDate (y m d : Nat)
  deriving DecidableEq, Repr

/-- `hash(v)` succeeds exactly on non-container values. -/
def PyVal.toKey : PyVal → Option PyKey
  | .vNull => some .kNull
  | .vInt n => some (.kInt n)
  | .vStr s => some (.kStr s)
  | .vDate y m d => some (.kDate y m d)
  | .vList _ => none
  | .vDict _ => none

/-- `len(v)`: defined for lists, strings and dicts; `TypeError` otherwise. -/
def pyLen : PyVal → Except PyExc Nat
  | .vList xs => .ok xs.length
  | .vStr s => .ok s.length
  | .vDict d => .ok d.length
  | _ => .error (.typeError "object has no len")

/-- `iter(v)`: lists yield their elements, strings their one-character
substrings, dicts their keys; `TypeError` otherwise. -/
def pyIter : PyVal → Except PyExc (List PyVal)
  | .vList xs => .ok xs
  | .vStr s => .ok (s.data.map fun c => .vStr (String.mk [c]))
  | .vDict d => .ok (d.map fun p => .vStr p.1)
  | _ => .error (.typeError "object is not iterable")

/-- Lookup in a string-keyed Python dict (`d[k]` / `k in d`).  A `vDict`
models a Python dict, whose keys are unique; lookup takes the first match. -/
def dictGet (d : List (String × PyVal)) (k : String) : Option PyVal :=
  (d.find? fun p => p.1 == k).map fun p => p.2

/-- A row dictionary under construction: association list keyed by `PyKey`. -/
abbrev PyRow := List (PyKey × PyVal)

/-- Insertion into a Python dict: an existing key keeps its position and gets
the new value; a fresh key is appended (insertion order). -/
def rowInsert (d : PyRow) (k : PyKey) (v : PyVal) : PyRow :=
  if d.any fun p => p.1 = k then
    d.map fun p => if p.1 = k then (p.1, v) else p
  else
    d ++ [(k, v)]

/-- Loop of `dict(pairs)`: each key is hashed (`TypeError` on an unhashable
key) and inserted with Python dict semantics. -/
def pyDictOfPairsGo (d : PyRow) : List (PyVal × PyVal) → Except PyExc PyRow
  | [] => .ok d
  | p :: rest =>
    match p.1.toKey with
    | some k => pyDictOfPairsGo (rowInsert d k p.2) rest
    | none => .error (.typeError "unhashable type")

/-- `dict(pairs)` starting from the empty dict. -/
def pyDictOfPairs (ps : List (PyVal × PyVal)) : Except PyExc PyRow :=
  pyDictOfPairsGo [] ps

/-- Message of the `MoexParsingError` raised on a row/columns length mismatch
(`parsers.py:50-53`; the source wraps the block name in single quotes,
which are omitted here). -/
def mismatchMsg (blockName : String) (ncols nvals : Nat) : String :=
  "Column count mismatch in block " ++ blockName ++ ": " ++ toString ncols ++
    " columns defined but row has " ++ toString nvals ++ " values"

/-- The per-block row loop of `parse_json_response` (`parsers.py:47-56`):
for each row, compare `len(row)` with `len(columns)`, raise the mismatch
`MoexParsingError` on inequality, otherwise build `dict(zip(columns, row))`
and append it to the accumulated `rows` list. -/
def parseRowsGo (blockName : String) (columns : PyVal) (acc : List PyRow) :
    List PyVal → Except PyExc (List PyRow)
  | [] => .ok acc
  | row :: rest => do
    let nvals ← pyLen row
    let ncols ← pyLen columns
    if nvals ≠ ncols then
      .error (.moexParsingError (mismatchMsg blockName ncols nvals))
    else do
      let cs ← pyIter columns
      let vs ← pyIter row
      let d ← pyDictOfPairs (cs.zip vs)
      parseRowsGo blockName columns (acc ++ [d]) rest

/-- Parsing of one block: `for row in data` over `iter(data)`. -/
def parseRows (blockName : String) (columns data : PyVal) :
    Except PyExc (List PyRow) := do
  let rows ← pyIter data
  parseRowsGo blockName columns [] rows

/-- Insertion into the string-keyed `result` dict (`result[block_name] = rows`). -/
def resultInsert (d : List (String × List PyRow)) (k : String)
    (v : List PyRow) : List (String × List PyRow) :=
  if d.any fun p => p.1 == k then
    d.map fun p => if p.1 == k then (p.1, v) else p
  else
    d ++ [(k, v)]

/-- The block loop of `parse_json_response` (`parsers.py:38-58`): entries whose
value is not a dict containing both `columns` and `data` are skipped; block
entries are parsed row by row and stored under the block name. -/
def parseEntriesGo (result : List (String × List PyRow)) :
    List (String × PyVal) → Except PyExc (List (String × List PyRow))
  | [] => .ok result
  | p :: rest =>
    match p.2 with
    | .vDict d =>
      match dictGet d "columns", dictGet d "data" with
      | some cols, some data => do
        let rows ← parseRows p.1 cols data
        parseEntriesGo (resultInsert result p.1 rows) rest
      | _, _ => parseEntriesGo result rest
    | _ => parseEntriesGo result rest

/-- The block loop starting from the empty `result` dict. -/
def parseEntries (entries : List (String × PyVal)) :
    Except PyExc (List (String × List PyRow)) :=
  parseEntriesGo [] entries

/-- The `except (KeyError, TypeError)` clause of `parse_json_response`
(`parsers.py:62-63`): those two exception classes are wrapped into
`MoexParsingError("Failed to parse API response")`; every other exception
(including a raised `MoexParsingError` and `AttributeError`) passes through. -/
def wrapKeyTypeErrors : PyExc → PyExc
  | .keyError _ => .moexParsingError "Failed to parse API response"
  | .typeError _ => .moexParsingError "Failed to parse API response"
  | e => e

/-- `parse_json_response` (`parsers.py:17-63`).  `response_data.items()` on a
non-dict raises `AttributeError` (which the `except (KeyError, TypeError)`
clause does not catch); on a dict the block loop runs under that clause. -/
def parse_json_response (responseData : PyVal) :
    Except PyExc (List (String × List PyRow)) :=
  match responseData with
  | .vDict entries =>
    match parseEntries entries with
    | .ok r => .ok r
    | .error e => .error (wrapKeyTypeErrors e)
  | _ => .error (.attributeError "object has no attribute items")


/-- Reads a list of `PyVal`s as a list of strings. -/
def strListOfVals : List PyVal → Option (List String)
  | [] => some []
  | .vStr s :: rest => (strListOfVals rest).map fun t => s :: t
  | _ => none

/-- Reads a list of `PyVal`s as a list of lists. -/
def rowListOfVals : List PyVal → Option (List (List PyVal))
  | [] => some []
  | .vList r :: rest => (rowListOfVals rest).map fun t => r :: t
  | _ => none

/-- Reads a `PyVal` as a list of strings (the shape of a block's `columns`). -/
def pyStrList : PyVal → Option (List String)
  | .vList xs => strListOfVals xs
  | _ => none

/-- Reads a `PyVal` as a list of lists (the shape of a block's `data`). -/
def pyRowList : PyVal → Option (List (List PyVal))
  | .vList xs => rowListOfVals xs
  | _ => none

/-- Extracts the column names and rows of a data-block entry; `none` when the
value is not a dict containing both `columns` and `data` with list shapes. -/
def blockOf (v : PyVal) : Option (List String × List (List PyVal)) :=
  match v with
  | .vDict d =>
    match dictGet d "columns", dictGet d "data" with
    | some cols, some data =>
      match pyStrList cols, pyRowList data with
      | some cnames, some rows => some (cnames, rows)
      | _, _ => none
    | _, _ => none
  | _ => none

/-- A well-formed top-level entry: if its value is a dict containing both
`columns` and `data`, then `columns` is a list of pairwise-distinct strings,
`data` is a list of rows (lists), and every row has `columns`-many values.
Any other value is metadata and may have any shape. -/
def WfEntry (p : String × PyVal) : Prop :=
  match p.2 with
  | .vDict d =>
    match dictGet d "columns", dictGet d "data" with
    | some cols, some data =>
      ∃ cnames rows, pyStrList cols = some cnames ∧ pyRowList data = some rows ∧
        cnames.Nodup ∧ ∀ r ∈ rows, r.length = cnames.length
    | _, _ => True
  | _ => True

theorem strListOfVals_eq_some {xs : List PyVal} {cnames : List String}
    (h : strListOfVals xs = some cnames) : xs = cnames.map .vStr := by
  induction xs generalizing cnames with
  | nil =>
    simp only [strListOfVals, Option.some.injEq] at h
    simp [← h]
  | cons x xs ih =>
    cases x with
    | vStr s =>
      simp only [strListOfVals, Option.map_eq_some'] at h
      obtain ⟨t, ht, rfl⟩ := h
      simp [ih ht]
    | vNull => simp [strListOfVals] at h
    | vInt n => simp [strListOfVals] at h
    | vDate y m d => simp [strListOfVals] at h
    | vList l => simp [strListOfVals] at h
    | vDict d => simp [strListOfVals] at h

theorem rowListOfVals_eq_some {xs : List PyVal} {rows : List (List PyVal)}
    (h : rowListOfVals xs = some rows) : xs = rows.map .vList := by
  induction xs generalizing rows with
  | nil =>
    simp only [rowListOfVals, Option.some.injEq] at h
    simp [← h]
  | cons x xs ih =>
    cases x with
    | vList l =>
      simp only [rowListOfVals, Option.map_eq_some'] at h
      obtain ⟨t, ht, rfl⟩ := h
      simp [ih ht]
    | vNull => simp [rowListOfVals] at h
    | vInt n => simp [rowListOfVals] at h
    | vStr s => simp [rowListOfVals] at h
    | vDate y m d => simp [rowListOfVals] at h
    | vDict d => simp [rowListOfVals] at h

theorem pyStrList_eq_some {v : PyVal} {cnames : List String}
    (h : pyStrList v = some cnames) : v = .vList (cnames.map .vStr) := by
  cases v with
  | vList xs => exact congrArg PyVal.vList (strListOfVals_eq_some h)
  | vNull => simp [pyStrList] at h
  | vInt n => simp [pyStrList] at h
  | vStr s => simp [pyStrList] at h
  | vDate y m d => simp [pyStrList] at h
  | vDict d => simp [pyStrList] at h

theorem pyRowList_eq_some {v : PyVal} {rows : List (List PyVal)}
    (h : pyRowList v = some rows) : v = .vList (rows.map .vList) := by
  cases v with
  | vList xs => exact congrArg PyVal.vList (rowListOfVals_eq_some h)
  | vNull => simp [pyRowList] at h
  | vInt n => simp [pyRowList] at h
  | vStr s => simp [pyRowList] at h
  | vDate y m d => simp [pyRowList] at h
  | vDict d => simp [pyRowList] at h

theorem ok_bind {ε α β : Type} (a : α) (f : α → Except ε β) :
    (Except.ok a >>= f) = f a := rfl

theorem error_bind {ε α β : Type} (e : ε) (f : α → Except ε β) :
    ((Except.error e : Except ε α) >>= f) = Except.error e := rfl

theorem pyDictOfPairsGo_str_nodup (cnames : List String) :
    ∀ (vs : List PyVal) (acc : PyRow), cnames.Nodup →
    (∀ c ∈ cnames, (acc.any fun p => p.1 = PyKey.kStr c) = false) →
    pyDictOfPairsGo acc ((cnames.map PyVal.vStr).zip vs) =
      .ok (acc ++ (cnames.map PyKey.kStr).zip vs) := by
  induction cnames with
  | nil => intro vs acc _ _; simp [pyDictOfPairsGo]
  | cons c cs ih =>
    intro vs acc hnd hfresh
    cases vs with
    | nil => simp [pyDictOfPairsGo]
    | cons v vs =>
      rw [List.nodup_cons] at hnd
      have hc := hfresh c (List.mem_cons_self c cs)
      have hf : ∀ c' ∈ cs,
          ((acc ++ [(PyKey.kStr c, v)]).any fun p => p.1 = PyKey.kStr c') = false := by
        intro c' hc'
        have h1 := hfresh c' (List.mem_cons_of_mem c hc')
        have h2 : c ≠ c' := fun h => hnd.1 (h ▸ hc')
        simp [List.any_append, h1, h2]
      simp only [List.map_cons, List.zip_cons_cons, pyDictOfPairsGo, PyVal.toKey]
      rw [rowInsert, if_neg (by simp [hc])]
      have hz : List.zipWith Prod.mk (List.map PyVal.vStr cs) vs =
          (List.map PyVal.vStr cs).zip vs := rfl
      rw [hz, ih vs (acc ++ [(PyKey.kStr c, v)]) hnd.2 hf]
      simp

theorem parseRowsGo_wf (name : String) (cnames : List String)
    (hnd : cnames.Nodup) :
    ∀ (rows : List (List PyVal)) (acc : List PyRow),
    (∀ r ∈ rows, r.length = cnames.length) →
    parseRowsGo name (.vList (cnames.map .vStr)) acc (rows.map .vList) =
      .ok (acc ++ rows.map fun r => (cnames.map PyKey.kStr).zip r) := by
  intro rows
  induction rows with
  | nil => intro acc _; simp [parseRowsGo]
  | cons r rs ih =>
    intro acc hlen
    have hr := hlen r (List.mem_cons_self r rs)
    simp only [List.map_cons, parseRowsGo, pyLen, pyIter, ok_bind]
    rw [if_neg (by simp [hr])]
    simp only [ok_bind, pyDictOfPairs]
    rw [pyDictOfPairsGo_str_nodup cnames r [] hnd (by intro c _; simp)]
    simp only [List.nil_append, ok_bind]
    rw [ih (acc ++ [(cnames.map PyKey.kStr).zip r])
      (fun r' h => hlen r' (List.mem_cons_of_mem r h))]
    simp

theorem parseRows_wf (name : String) (cnames : List String)
    (rows : List (List PyVal)) (hnd : cnames.Nodup)
    (hlen : ∀ r ∈ rows, r.length = cnames.length) :
    parseRows name (.vList (cnames.map .vStr)) (.vList (rows.map .vList)) =
      .ok (rows.map fun r => (cnames.map PyKey.kStr).zip r) := by
  simp only [parseRows, pyIter, ok_bind]
  rw [parseRowsGo_wf name cnames hnd rows [] hlen]
  simp

/-- The output that `parse_json_response` should produce on a well-formed
input: one entry per data block (in input order, metadata entries skipped),
holding one parsed row per source row, each row being `columns` zipped with
the row's values. -/
def expectedBlocks (entries : List (String × PyVal)) : List (String × List PyRow) :=
  entries.filterMap fun p => (blockOf p.2).map fun b =>
    (p.1, b.2.map fun r => (b.1.map PyKey.kStr).zip r)

theorem parseEntriesGo_wf :
    ∀ (entries : List (String × PyVal)) (res : List (String × List PyRow)),
    (entries.map Prod.fst).Nodup →
    (∀ p ∈ entries, WfEntry p) →
    (∀ p ∈ entries, (res.any fun q => q.1 == p.1) = false) →
    parseEntriesGo res entries = .ok (res ++ expectedBlocks entries) := by
  intro entries
  induction entries with
  | nil => intro res _ _ _; simp [parseEntriesGo, expectedBlocks]
  | cons p rest ih =>
    intro res hnd hwf hfresh
    obtain ⟨n, v⟩ := p
    rw [List.map_cons, List.nodup_cons] at hnd
    have hwfh := hwf _ (List.mem_cons_self _ _)
    have hwfrest : ∀ q ∈ rest, WfEntry q := fun q hq => hwf q (List.mem_cons_of_mem _ hq)
    cases v with
    | vDict d =>
      rcases h1 : dictGet d "columns" with _ | cols
      · have hb : blockOf (PyVal.vDict d) = none := by simp [blockOf, h1]
        simp only [parseEntriesGo, h1]
        rw [ih res hnd.2 hwfrest (fun q hq => hfresh q (List.mem_cons_of_mem _ hq))]
        simp [expectedBlocks, hb]
      · rcases h2 : dictGet d "data" with _ | data
        · have hb : blockOf (PyVal.vDict d) = none := by simp [blockOf, h1, h2]
          simp only [parseEntriesGo, h1, h2]
          rw [ih res hnd.2 hwfrest (fun q hq => hfresh q (List.mem_cons_of_mem _ hq))]
          simp [expectedBlocks, hb]
        · simp only [WfEntry, h1, h2] at hwfh
          obtain ⟨cnames, rows, hc, hrw, hnd', hlen⟩ := hwfh
          have hcols := pyStrList_eq_some hc
          have hdata := pyRowList_eq_some hrw
          subst hcols hdata
          have hb : blockOf (PyVal.vDict d) = some (cnames, rows) := by
            simp [blockOf, h1, h2, hc, hrw]
          simp only [parseEntriesGo, h1, h2]
          rw [parseRows_wf n cnames rows hnd' hlen, ok_bind]
          rw [resultInsert, if_neg (by simp [hfresh (n, PyVal.vDict _) (List.mem_cons_self _ _)])]
          rw [ih (res ++ [(n, rows.map fun r => (cnames.map PyKey.kStr).zip r)]) hnd.2 hwfrest ?_]
          · simp [expectedBlocks, hb]
          · intro q hq
            have hres := hfresh q (List.mem_cons_of_mem _ hq)
            have hne : (n == q.1) = false := by
              have : n ≠ q.1 := by
                intro h
                exact hnd.1 (by rw [h]; exact List.mem_map.mpr ⟨q, hq, rfl⟩)
              simpa using this
            simp [List.any_append, hres, hne]
    | vNull =>
      simp only [parseEntriesGo]
      rw [ih res hnd.2 hwfrest (fun q hq => hfresh q (List.mem_cons_of_mem _ hq))]
      simp [expectedBlocks, blockOf]
    | vInt m =>
      simp only [parseEntriesGo]
      rw [ih res hnd.2 hwfrest (fun q hq => hfresh q (List.mem_cons_of_mem _ hq))]
      simp [expectedBlocks, blockOf]
    | vStr s =>
      simp only [parseEntriesGo]
      rw [ih res hnd.2 hwfrest (fun q hq => hfresh q (List.mem_cons_of_mem _ hq))]
      simp [expectedBlocks, blockOf]
    | vDate y m dd =>
      simp only [parseEntriesGo]
      rw [ih res hnd.2 hwfrest (fun q hq => hfresh q (List.mem_cons_of_mem _ hq))]
      simp [expectedBlocks, blockOf]
    | vList l =>
      simp only [parseEntriesGo]
      rw [ih res hnd.2 hwfrest (fun q hq => hfresh q (List.mem_cons_of_mem _ hq))]
      simp [expectedBlocks, blockOf]

/-- C1 (amended): for every input mapping whose entries are well-formed blocks
(each a dict with `columns` and `data`, `columns` a list of pairwise-distinct
string names, and every row in `data` a list of `columns`-many values),
`parse_json_response` returns, for each block name in input order, exactly
`len(data)` parsed rows, each row being `columns` zipped positionally with the
row's values (so its keys are exactly the block's columns in the same order);
entries whose value is not a dict containing both `columns` and `data` are
skipped and absent from the result.  (`expectedBlocks` is exactly that output.) -/
theorem parse_json_response_wellformed_blocks (entries : List (String × PyVal))
    (hnd : (entries.map Prod.fst).Nodup)
    (hwf : ∀ p ∈ entries, WfEntry p) :
    parse_json_response (.vDict entries) = .ok (expectedBlocks entries) := by
  simp only [parse_json_response, parseEntries]
  rw [parseEntriesGo_wf entries [] hnd hwf (by intro p _; simp)]
  simp

/-- A block whose `columns` contains a duplicate name.  The claim, as stated,
predicts a row mapping whose keys are `a, a` (the columns in order); the code
builds `dict(zip(columns, row))`, which collapses the duplicate key, keeping
the first position and the last value. -/
def dupColumnsInput : PyVal :=
  .vDict [("b", .vDict
    [("columns", .vList [.vStr "a", .vStr "a"]),
     ("data", .vList [.vList [.vInt 1, .vInt 2]])])]

/-- C1 counterexample: on a length-matched block with duplicate columns
`["a", "a"]` and row `[1, 2]`, the parsed row is `{"a": 2}` — a single key —
so its keys are not the block's columns `["a", "a"]` in the same order. -/
theorem parse_json_response_duplicate_columns_counterexample :
    parse_json_response dupColumnsInput =
      .ok [("b", [[(PyKey.kStr "a", PyVal.vInt 2)]])] ∧
    [(PyKey.kStr "a", PyVal.vInt 2)].map Prod.fst ≠
      [PyKey.kStr "a", PyKey.kStr "a"] := by
  exact ⟨rfl, by decide⟩

/-- A well-formed response: one block (distinct columns, length-matched rows)
and one metadata entry that must be skipped. -/
def wfExampleEntries : List (String × PyVal) :=
  [("engines", .vDict
     [("columns", .vList [.vStr "id", .vStr "name"]),
      ("data", .vList [.vList [.vStr "stock", .vStr "stock"],
                       .vList [.vStr "currency", .vStr "currency"]])]),
   ("history.cursor", .vList [.vInt 0])]

theorem parse_json_response_wellformed_blocks_witness :
    (wfExampleEntries.map Prod.fst).Nodup ∧
    (∀ p ∈ wfExampleEntries, WfEntry p) ∧
    parse_json_response (.vDict wfExampleEntries) =
      .ok [("engines",
        [[(PyKey.kStr "id", PyVal.vStr "stock"), (PyKey.kStr "name", PyVal.vStr "stock")],
         [(PyKey.kStr "id", PyVal.vStr "currency"), (PyKey.kStr "name", PyVal.vStr "currency")]])] := by
  have hnd : (wfExampleEntries.map Prod.fst).Nodup := by decide
  have hwf : ∀ p ∈ wfExampleEntries, WfEntry p := by
    intro p hp
    simp only [wfExampleEntries, List.mem_cons, List.not_mem_nil, or_false] at hp
    rcases hp with rfl | rfl
    · exact ⟨["id", "name"],
        [[.vStr "stock", .vStr "stock"], [.vStr "currency", .vStr "currency"]],
        rfl, rfl, by decide, by decide⟩
    · trivial
  exact ⟨hnd, hwf,
    (parse_json_response_wellformed_blocks wfExampleEntries hnd hwf).trans rfl⟩

/-- The exceptions converted by the `except (KeyError, TypeError)` clause,
plus `MoexParsingError` itself (raised inside the `try` and re-raised as-is). -/
def PyExc.isKeyTypeOrParsing : PyExc → Bool
  | .keyError _ => true
  | .typeError _ => true
  | .moexParsingError _ => true
  | _ => false

theorem bind_error_iff {ε α β : Type} {x : Except ε α} {f : α → Except ε β}
    {e : ε} : (x >>= f) = .error e ↔
      (x = .error e ∨ ∃ a, x = .ok a ∧ f a = .error e) := by
  cases x with
  | error e' => simp [error_bind]
  | ok a => simp [ok_bind]

theorem pyLen_error {v : PyVal} {e : PyExc} (h : pyLen v = .error e) :
    e = .typeError "object has no len" := by
  cases v <;> simp [pyLen] at h <;> exact h.symm

theorem pyIter_error {v : PyVal} {e : PyExc} (h : pyIter v = .error e) :
    e = .typeError "object is not iterable" := by
  cases v <;> simp [pyIter] at h <;> exact h.symm

theorem pyDictOfPairsGo_error :
    ∀ (ps : List (PyVal × PyVal)) (d : PyRow) {e : PyExc},
    pyDictOfPairsGo d ps = .error e → e = .typeError "unhashable type" := by
  intro ps
  induction ps with
  | nil => intro d e h; simp [pyDictOfPairsGo] at h
  | cons p rest ih =>
    intro d e h
    simp only [pyDictOfPairsGo] at h
    cases hk : p.1.toKey with
    | some k => rw [hk] at h; exact ih _ h
    | none => rw [hk] at h; exact (Except.error.inj h).symm

theorem parseRowsGo_error (name : String) (cols : PyVal) :
    ∀ (rows : List PyVal) (acc : List PyRow) {e : PyExc},
    parseRowsGo name cols acc rows = .error e → e.isKeyTypeOrParsing = true := by
  intro rows
  induction rows with
  | nil => intro acc e h; simp [parseRowsGo] at h
  | cons row rest ih =>
    intro acc e h
    simp only [parseRowsGo] at h
    rcases bind_error_iff.mp h with h1 | ⟨nvals, h1, h⟩
    · rw [pyLen_error h1]; rfl
    · rcases bind_error_iff.mp h with h2 | ⟨ncols, h2, h⟩
      · rw [pyLen_error h2]; rfl
      · by_cases hc : nvals ≠ ncols
        · rw [if_pos hc] at h
          rw [← Except.error.inj h]; rfl
        · rw [if_neg hc] at h
          rcases bind_error_iff.mp h with h3 | ⟨cs, h3, h⟩
          · rw [pyIter_error h3]; rfl
          · rcases bind_error_iff.mp h with h4 | ⟨vs, h4, h⟩
            · rw [pyIter_error h4]; rfl
            · rcases bind_error_iff.mp h with h5 | ⟨dct, h5, h⟩
              · rw [pyDictOfPairsGo_error _ _ h5]; rfl
              · exact ih _ h

theorem parseRows_error (name : String) (cols data : PyVal) {e : PyExc}
    (h : parseRows name cols data = .error e) : e.isKeyTypeOrParsing = true := by
  simp only [parseRows] at h
  rcases bind_error_iff.mp h with h1 | ⟨rows, _, h⟩
  · rw [pyIter_error h1]; rfl
  · exact parseRowsGo_error name cols rows [] h

theorem parseEntriesGo_error :
    ∀ (entries : List (String × PyVal)) (res : List (String × List PyRow))
    {e : PyExc},
    parseEntriesGo res entries = .error e → e.isKeyTypeOrParsing = true := by
  intro entries
  induction entries with
  | nil => intro res e h; simp [parseEntriesGo] at h
  | cons p rest ih =>
    intro res e h
    obtain ⟨n, v⟩ := p
    cases v with
    | vDict d =>
      rcases h1 : dictGet d "columns" with _ | cols
      · simp only [parseEntriesGo, h1] at h; exact ih _ h
      · rcases h2 : dictGet d "data" with _ | data
        · simp only [parseEntriesGo, h1, h2] at h; exact ih _ h
        · simp only [parseEntriesGo, h1, h2] at h
          rcases bind_error_iff.mp h with h3 | ⟨rows, _, h⟩
          · exact parseRows_error _ _ _ h3
          · exact ih _ h
    | vNull => simp only [parseEntriesGo] at h; exact ih _ h
    | vInt m => simp only [parseEntriesGo] at h; exact ih _ h
    | vStr s => simp only [parseEntriesGo] at h; exact ih _ h
    | vDate y m dd => simp only [parseEntriesGo] at h; exact ih _ h
    | vList l => simp only [parseEntriesGo] at h; exact ih _ h

theorem wrapKeyTypeErrors_parsing {e : PyExc}
    (h : e.isKeyTypeOrParsing = true) :
    ∃ m, wrapKeyTypeErrors e = .moexParsingError m := by
  cases e <;> simp [PyExc.isKeyTypeOrParsing] at h <;>
    exact ⟨_, rfl⟩

/-- A top-level entry holding a data block (a dict with both `columns` and
`data`, `data` a list) in which some row has a length different from the
columns length — the situation C2 quantifies over. -/
def BadBlockEntry (p : String × PyVal) : Prop :=
  ∃ d cols rows, p.2 = .vDict d ∧ dictGet d "columns" = some cols ∧
    dictGet d "data" = some (.vList rows) ∧
    ∃ r ∈ rows, ∃ nv nc, pyLen r = .ok nv ∧ pyLen cols = .ok nc ∧ nv ≠ nc

theorem parseRowsGo_bad (name : String) (cols : PyVal) :
    ∀ (rows : List PyVal) (acc : List PyRow),
    (∃ r ∈ rows, ∃ nv nc, pyLen r = .ok nv ∧ pyLen cols = .ok nc ∧ nv ≠ nc) →
    ∃ e, parseRowsGo name cols acc rows = .error e := by
  intro rows
  induction rows with
  | nil => intro acc h; simp at h
  | cons row rest ih =>
    intro acc ⟨r, hr, nv, nc, hnv, hnc, hne⟩
    simp only [parseRowsGo]
    cases hL : pyLen row with
    | error e1 => exact ⟨e1, by rw [error_bind]⟩
    | ok nvals =>
      rw [ok_bind, hnc, ok_bind]
      by_cases hcond : nvals ≠ nc
      · rw [if_pos hcond]; exact ⟨_, rfl⟩
      · rw [if_neg hcond]
        push_neg at hcond
        rcases List.mem_cons.mp hr with rfl | hr'
        · rw [hL] at hnv
          exact absurd ((Except.ok.inj hnv) ▸ hcond) hne
        · cases hIc : pyIter cols with
          | error e2 => exact ⟨e2, by rw [error_bind]⟩
          | ok cs =>
            rw [ok_bind]
            cases hIr : pyIter row with
            | error e3 => exact ⟨e3, by rw [error_bind]⟩
            | ok vs =>
              rw [ok_bind]
              cases hD : pyDictOfPairs (cs.zip vs) with
              | error e4 => exact ⟨e4, by rw [error_bind]⟩
              | ok dct =>
                rw [ok_bind]
                exact ih (acc ++ [dct]) ⟨r, hr', nv, nc, hnv, hnc, hne⟩

theorem parseRows_bad (name : String) (cols : PyVal) (rows : List PyVal)
    (h : ∃ r ∈ rows, ∃ nv nc, pyLen r = .ok nv ∧ pyLen cols = .ok nc ∧ nv ≠ nc) :
    ∃ e, parseRows name cols (.vList rows) = .error e := by
  obtain ⟨e, he⟩ := parseRowsGo_bad name cols rows [] h
  exact ⟨e, by simp only [parseRows, pyIter, ok_bind]; exact he⟩

theorem parseEntriesGo_bad :
    ∀ (entries : List (String × PyVal)) (res : List (String × List PyRow)),
    (∃ p ∈ entries, BadBlockEntry p) →
    ∃ e, parseEntriesGo res entries = .error e := by
  intro entries
  induction entries with
  | nil => intro res h; simp at h
  | cons p rest ih =>
    intro res ⟨q, hq, hbad⟩
    rcases List.mem_cons.mp hq with rfl | hq'
    · obtain ⟨n, v⟩ := q
      obtain ⟨d, cols, rows, hv, h1, h2, hbadrow⟩ := hbad
      simp only at hv
      subst hv
      simp only [parseEntriesGo, h1, h2]
      obtain ⟨e, he⟩ := parseRows_bad n cols rows hbadrow
      exact ⟨e, by rw [he, error_bind]⟩
    · obtain ⟨n, v⟩ := p
      cases v with
      | vDict d =>
        rcases h1 : dictGet d "columns" with _ | cols
        · simp only [parseEntriesGo, h1]; exact ih res ⟨q, hq', hbad⟩
        · rcases h2 : dictGet d "data" with _ | data
          · simp only [parseEntriesGo, h1, h2]; exact ih res ⟨q, hq', hbad⟩
          · simp only [parseEntriesGo, h1, h2]
            cases hPR : parseRows n cols data with
            | error e => exact ⟨e, by rw [error_bind]⟩
            | ok rows' =>
              rw [ok_bind]
              exact ih (resultInsert res n rows') ⟨q, hq', hbad⟩
      | vNull => simp only [parseEntriesGo]; exact ih res ⟨q, hq', hbad⟩
      | vInt m => simp only [parseEntriesGo]; exact ih res ⟨q, hq', hbad⟩
      | vStr s => simp only [parseEntriesGo]; exact ih res ⟨q, hq', hbad⟩
      | vDate y m dd => simp only [parseEntriesGo]; exact ih res ⟨q, hq', hbad⟩
      | vList l => simp only [parseEntriesGo]; exact ih res ⟨q, hq', hbad⟩

/-- C2: for every input mapping containing a block (a dict with both `columns`
and `data`) in which some row's length differs from the block's columns
length, `parse_json_response` fails with a `MoexParsingError`; because the
result is an error, no partial mapping is returned to the caller. -/
theorem parse_json_response_row_length_mismatch_fails
    (entries : List (String × PyVal))
    (hbad : ∃ p ∈ entries, BadBlockEntry p) :
    ∃ msg, parse_json_response (.vDict entries) =
      .error (.moexParsingError msg) := by
  obtain ⟨e, he⟩ := parseEntriesGo_bad entries [] hbad
  obtain ⟨m, hm⟩ :=
    wrapKeyTypeErrors_parsing (parseEntriesGo_error entries [] he)
  refine ⟨m, ?_⟩
  simp only [parse_json_response, parseEntries, he, hm]

/-- An input whose single block defines 1 column but has a 2-value row. -/
def mismatchEntries : List (String × PyVal) :=
  [("boards", .vDict
    [("columns", .vList [.vStr "boardid"]),
     ("data", .vList [.vList [.vInt 1, .vInt 2]])])]

theorem parse_json_response_row_length_mismatch_witness :
    (∃ p ∈ mismatchEntries, BadBlockEntry p) ∧
    ∃ msg, parse_json_response (.vDict mismatchEntries) =
      .error (.moexParsingError msg) := by
  have hbad : ∃ p ∈ mismatchEntries, BadBlockEntry p := by
    refine ⟨("boards", .vDict
      [("columns", .vList [.vStr "boardid"]),
       ("data", .vList [.vList [.vInt 1, .vInt 2]])]),
      List.mem_cons_self _ _, ?_⟩
    exact ⟨[("columns", .vList [.vStr "boardid"]),
            ("data", .vList [.vList [.vInt 1, .vInt 2]])],
      .vList [.vStr "boardid"], [.vList [.vInt 1, .vInt 2]],
      rfl, rfl, rfl,
      ⟨.vList [.vInt 1, .vInt 2], List.mem_cons_self _ _, 2, 1, rfl, rfl,
        by decide⟩⟩
  exact ⟨hbad, parse_json_response_row_length_mismatch_fails mismatchEntries hbad⟩

/-- Whether a result is a raised `MoexParsingError`. -/
def resultIsParsingError {α : Type} : Except PyExc α → Bool
  | .error (.moexParsingError _) => true
  | _ => false

/-- C3 (code bug): on a top-level value that is not a mapping (here a JSON
list), `response_data.items()` raises `AttributeError`, which the
`except (KeyError, TypeError)` clause of `parse_json_response` does not
catch — so the escaping exception is an `AttributeError`, not the
`MoexParsingError` promised by the spec and by the function's docstring. -/
theorem parse_json_response_nonmapping_attribute_error :
    parse_json_response (.vList []) =
      .error (.attributeError "object has no attribute items") ∧
    resultIsParsingError (parse_json_response (.vList [])) = false :=
  ⟨rfl, rfl⟩

/-- Decimal value of a most-significant-first digit string. -/
def digitsVal (cs : List Char) : Nat :=
  cs.foldl (fun a c => 10 * a + (c.toNat - 48)) 0

/-- Model of Python `int(s)`: surrounding spaces are ignored, an optional
sign precedes at least one digit; anything else raises `ValueError`. -/
def pyInt (s : String) : Except PyExc Int :=
  let cs := ((s.data.dropWhile fun c => c = ' ').reverse.dropWhile
    fun c => c = ' ').reverse
  match cs with
  | '+' :: rest =>
    if rest ≠ [] ∧ rest.all Char.isDigit then .ok (digitsVal rest)
    else .error (.valueError ("invalid literal for int: " ++ s))
  | '-' :: rest =>
    if rest ≠ [] ∧ rest.all Char.isDigit then .ok (-(digitsVal rest : Int))
    else .error (.valueError ("invalid literal for int: " ++ s))
  | rest =>
    if rest ≠ [] ∧ rest.all Char.isDigit then .ok (digitsVal rest)
    else .error (.valueError ("invalid literal for int: " ++ s))

/-- The interval name → API code dict of `get_stock_candles`
(`endpoints.py:128-136`), in insertion order. -/
def interval_map : List (String × Nat) :=
  [("min", 1), ("1min", 1), ("10min", 10), ("hour", 60),
   ("day", 24), ("week", 7), ("month", 31), ("quarter", 4)]

/-- The interval-validation step of `get_stock_candles`
(`endpoints.py:138-144`): an unknown name raises `ValueError` listing the
valid names joined by `", "` (the source wraps the offending name in single
quotes, omitted here); a known name maps to its numeric code. -/
def get_stock_candles_interval (interval : String) : Except PyExc Nat :=
  match interval_map.find? fun p => p.1 == interval with
  | some p => .ok p.2
  | none => .error (.valueError ("Invalid interval: " ++ interval ++
      ". Valid intervals are: " ++
      String.intercalate ", " (interval_map.map fun p => p.1)))

/-- C6: the candle interval vocabulary maps exactly min/1min to 1, 10min to
10, hour to 60, day to 24, week to 7, month to 31, quarter to 4; every name
outside the mapping fails with a `ValueError` whose message lists the valid
names `min, 1min, 10min, hour, day, week, month, quarter`. -/
theorem get_stock_candles_interval_mapping :
    (get_stock_candles_interval "min" = .ok 1 ∧
     get_stock_candles_interval "1min" = .ok 1 ∧
     get_stock_candles_interval "10min" = .ok 10 ∧
     get_stock_candles_interval "hour" = .ok 60 ∧
     get_stock_candles_interval "day" = .ok 24 ∧
     get_stock_candles_interval "week" = .ok 7 ∧
     get_stock_candles_interval "month" = .ok 31 ∧
     get_stock_candles_interval "quarter" = .ok 4) ∧
    ∀ s, (interval_map.find? fun p => p.1 == s) = none →
      get_stock_candles_interval s = .error (.valueError
        ("Invalid interval: " ++ s ++ ". Valid intervals are: " ++
         "min, 1min, 10min, hour, day, week, month, quarter")) := by
  refine ⟨⟨rfl, rfl, rfl, rfl, rfl, rfl, rfl, rfl⟩, ?_⟩
  intro s hs
  simp only [get_stock_candles_interval, hs]
  rfl

theorem get_stock_candles_interval_mapping_witness :
    (interval_map.find? fun p => p.1 == "biweekly") = none ∧
    get_stock_candles_interval "biweekly" = .error (.valueError
      "Invalid interval: biweekly. Valid intervals are: min, 1min, 10min, hour, day, week, month, quarter") := by
  have h : (interval_map.find? fun p => p.1 == "biweekly") = none := rfl
  exact ⟨h, (get_stock_candles_interval_mapping.2 "biweekly" h).trans rfl⟩

/-- An HTTP response as `_make_request` observes it: a status code and
response headers. -/
structure HttpResponse where
  status : Nat
  headers : List (String × String)

/-- ASCII lower-casing of one character (header names are ASCII). -/
def lowerChar (c : Char) : Char :=
  if 'A' ≤ c ∧ c ≤ 'Z' then Char.ofNat (c.toNat + 32) else c

/-- ASCII lower-casing of a string. -/
def lowerStr (s : String) : String :=
  String.mk (s.data.map lowerChar)

/-- `requests` headers are a case-insensitive dict; `headers.get(k)` looks a
key up ignoring case. -/
def headersGet (hs : List (String × String)) (k : String) : Option String :=
  (hs.find? fun p => lowerStr p.1 == lowerStr k).map fun p => p.2

/-- The outcome of `session.get`/`session.post`: either an HTTP response or a
`requests.exceptions.RequestException` transport failure. -/
inductive TransportResult where
  | success (r : HttpResponse)
  | failure (excMsg : String)

/-- The response handling of `MoexApiClient._make_request`
(`client.py:122-162`), with the transport call abstracted as a
`TransportResult`.  A transport failure is wrapped into
`MoexConnectionError` (whose `__str__` appends the original exception);
status 429 raises `MoexRateLimitError` with `retry_after` parsed via
`int(...)` from the `Retry-After` header defaulting to `"60"` (an unparsable
header makes the `ValueError` of `int` escape uncaught); 401/403 raise
`MoexAuthError`; any other status `>= 400` raises `MoexResponseError`;
otherwise the response is returned. -/
def make_request (t : TransportResult) : Except PyExc HttpResponse :=
  match t with
  | .failure m => .error (.moexConnectionError ("Failed to connect to MOEX API: " ++ m))
  | .success r =>
    if r.status = 429 then
      match pyInt ((headersGet r.headers "Retry-After").getD "60") with
      | .ok n => .error (.moexRateLimitError "Rate limit exceeded" r.status n)
      | .error e => .error e
    else if r.status = 401 ∨ r.status = 403 then
      .error (.moexAuthError "Authentication failed" r.status)
    else if r.status ≥ 400 then
      .error (.moexResponseError ("API returned error response: " ++ toString r.status) r.status)
    else
      .ok r

/-- C7: the HTTP status-to-error mapping of `_make_request` is exact —
transport failure yields `MoexConnectionError` wrapping the exception;
429 yields `MoexRateLimitError` with `retry_after` parsed from the
`Retry-After` header, defaulting to 60 when absent; 401 or 403 yield
`MoexAuthError`; every other status >= 400 yields `MoexResponseError`
carrying the status code; statuses below 400 return the response. -/
theorem make_request_status_error_mapping (r : HttpResponse) (m : String) :
    (make_request (.failure m) =
      .error (.moexConnectionError ("Failed to connect to MOEX API: " ++ m))) ∧
    (r.status = 429 → headersGet r.headers "Retry-After" = none →
      make_request (.success r) =
        .error (.moexRateLimitError "Rate limit exceeded" 429 60)) ∧
    (∀ v n, r.status = 429 → headersGet r.headers "Retry-After" = some v →
      pyInt v = .ok n →
      make_request (.success r) =
        .error (.moexRateLimitError "Rate limit exceeded" 429 n)) ∧
    (r.status = 401 ∨ r.status = 403 →
      make_request (.success r) =
        .error (.moexAuthError "Authentication failed" r.status)) ∧
    (r.status ≥ 400 → r.status ≠ 429 → r.status ≠ 401 → r.status ≠ 403 →
      make_request (.success r) =
        .error (.moexResponseError
          ("API returned error response: " ++ toString r.status) r.status)) ∧
    (r.status < 400 → make_request (.success r) = .ok r) := by
  refine ⟨rfl, ?_, ?_, ?_, ?_, ?_⟩
  · intro h1 h2
    simp only [make_request, h1, if_pos rfl, h2, Option.getD_none]
    rfl
  · intro v n h1 h2 h3
    simp [make_request, h1, h2, h3]
  · intro h
    rcases h with h | h <;> simp [make_request, h]
  · intro hge h429 h401 h403
    simp [make_request, h429, h401, h403, hge]
  · intro hlt
    have h429 : r.status ≠ 429 := by omega
    have h401 : r.status ≠ 401 := by omega
    have h403 : r.status ≠ 403 := by omega
    have hge : ¬ r.status ≥ 400 := by omega
    simp [make_request, h429, h401, h403, hge]

theorem make_request_status_error_mapping_witness :
    (make_request (.failure "timeout") =
      .error (.moexConnectionError "Failed to connect to MOEX API: timeout")) ∧
    (headersGet [("Retry-After", "60")] "Retry-After" = some "60" ∧
      pyInt "60" = .ok 60 ∧
      make_request (.success ⟨429, [("Retry-After", "60")]⟩) =
        .error (.moexRateLimitError "Rate limit exceeded" 429 60)) ∧
    (headersGet ([] : List (String × String)) "Retry-After" = none ∧
      make_request (.success ⟨429, []⟩) =
        .error (.moexRateLimitError "Rate limit exceeded" 429 60)) ∧
    (make_request (.success ⟨401, []⟩) =
      .error (.moexAuthError "Authentication failed" 401)) ∧
    (make_request (.success ⟨403, []⟩) =
      .error (.moexAuthError "Authentication failed" 403)) ∧
    (make_request (.success ⟨404, []⟩) =
      .error (.moexResponseError "API returned error response: 404" 404)) ∧
    (make_request (.success ⟨200, []⟩) = .ok ⟨200, []⟩) := by
  refine ⟨(make_request_status_error_mapping ⟨200, []⟩ "timeout").1.trans rfl,
    ⟨rfl, rfl, ?_⟩, ⟨rfl, ?_⟩, ?_, ?_, ?_, ?_⟩
  · exact (make_request_status_error_mapping ⟨429, [("Retry-After", "60")]⟩
      "x").2.2.1 "60" 60 rfl rfl rfl
  · exact (make_request_status_error_mapping ⟨429, []⟩ "x").2.1 rfl rfl
  · exact (make_request_status_error_mapping ⟨401, []⟩ "x").2.2.2.1 (Or.inl rfl)
  · exact (make_request_status_error_mapping ⟨403, []⟩ "x").2.2.2.1 (Or.inr rfl)
  · exact ((make_request_status_error_mapping ⟨404, []⟩ "x").2.2.2.2.1
      (by norm_num) (by norm_num) (by norm_num) (by norm_num)).trans rfl
  · exact (make_request_status_error_mapping ⟨200, []⟩ "x").2.2.2.2.2 (by norm_num)

/-- The class attribute `RATE_LIMIT = 0.2` of `MoexApiClient` (`client.py:46`);
the float `0.2` is modelled as the exact rational. -/
def clientRateLimitClassAttr : ℚ := 1 / 5

/-- The rate-limit computation of `MoexApiClient.__init__` (`client.py:64`):
`self.rate_limit = rate_limit or self.RATE_LIMIT`, where `or` yields the
right operand when the left is falsy (`None` or zero). -/
def client_init_rate_limit (rate_limit : Option ℚ) : ℚ :=
  match rate_limit with
  | none => clientRateLimitClassAttr
  | some r => if r = 0 then clientRateLimitClassAttr else r

/-- C10 (implicit): constructing a client with `rate_limit` equal to `None`
or `0` gives the default 0.2-second rate limit, and no constructor argument
can produce a client whose `rate_limit` is `0`, so rate limiting cannot be
disabled through `__init__`. -/
theorem client_init_rate_limit_default :
    client_init_rate_limit none = 1 / 5 ∧
    client_init_rate_limit (some 0) = 1 / 5 ∧
    ∀ x, client_init_rate_limit x ≠ 0 := by
  refine ⟨rfl, rfl, ?_⟩
  intro x
  match x with
  | none =>
    simp only [client_init_rate_limit, clientRateLimitClassAttr]
    norm_num
  | some r =>
    by_cases h : r = 0
    · simp only [client_init_rate_limit, h, if_pos rfl, clientRateLimitClassAttr]
      norm_num
    · simp [client_init_rate_limit, h]

theorem client_init_rate_limit_default_witness :
    client_init_rate_limit none = 1 / 5 ∧
    client_init_rate_limit (some 0) = 1 / 5 ∧
    client_init_rate_limit (some (1 / 2)) ≠ 0 :=
  ⟨client_init_rate_limit_default.1, client_init_rate_limit_default.2.1,
   client_init_rate_limit_default.2.2 (some (1 / 2))⟩

/-- Little-endian decimal digits of `n` (fuelled structural recursion). -/
def digitsRevAux : Nat → Nat → List Nat
  | 0, _ => []
  | fuel + 1, n => if n = 0 then [] else n % 10 :: digitsRevAux fuel (n / 10)

/-- Decimal digit characters of `n`, most significant first (empty for 0). -/
def natDigits (n : Nat) : List Char :=
  ((digitsRevAux n n).reverse).map Nat.digitChar

/-- `n` rendered in decimal, left-padded with zeros to width `w`. -/
def padNum (w n : Nat) : List Char :=
  List.replicate (w - (natDigits n).length) '0' ++ natDigits n

/-- Value of a little-endian decimal digit list. -/
def valLSB : List Nat → Nat
  | [] => 0
  | d :: ds => d + 10 * valLSB ds

theorem digitsRevAux_val : ∀ (fuel n : Nat), n ≤ fuel →
    valLSB (digitsRevAux fuel n) = n := by
  intro fuel
  induction fuel with
  | zero => intro n h; interval_cases n; simp [digitsRevAux, valLSB]
  | succ fuel ih =>
    intro n h
    by_cases h0 : n = 0
    · simp [digitsRevAux, h0, valLSB]
    · have hdiv : n / 10 ≤ fuel := by omega
      simp only [digitsRevAux, h0, if_neg, ite_false, valLSB, ih _ hdiv]
      omega

theorem digitsRevAux_lt_ten : ∀ (fuel n : Nat), ∀ d ∈ digitsRevAux fuel n,
    d < 10 := by
  intro fuel
  induction fuel with
  | zero => intro n d hd; simp [digitsRevAux] at hd
  | succ fuel ih =>
    intro n d hd
    by_cases h0 : n = 0
    · simp [digitsRevAux, h0] at hd
    · simp only [digitsRevAux, h0, if_neg, ite_false, List.mem_cons] at hd
      rcases hd with rfl | hd
      · omega
      · exact ih _ d hd

theorem digitsRevAux_length : ∀ (fuel n w : Nat), n ≤ fuel → n < 10 ^ w →
    (digitsRevAux fuel n).length ≤ w := by
  intro fuel
  induction fuel with
  | zero => intro n w h _; interval_cases n; simp [digitsRevAux]
  | succ fuel ih =>
    intro n w h hw
    by_cases h0 : n = 0
    · simp [digitsRevAux, h0]
    · have hwpos : w ≠ 0 := by
        intro hw0
        rw [hw0, pow_zero] at hw
        omega
      obtain ⟨w', rfl⟩ := Nat.exists_eq_succ_of_ne_zero hwpos
      have hdivfuel : n / 10 ≤ fuel := by omega
      have hdivpow : n / 10 < 10 ^ w' := by
        rw [Nat.div_lt_iff_lt_mul (by norm_num)]
        calc n < 10 ^ (w' + 1) := hw
        _ = 10 ^ w' * 10 := by ring
      simp only [digitsRevAux, h0, if_neg, ite_false, List.length_cons]
      have := ih (n / 10) w' hdivfuel hdivpow
      omega

theorem digitChar_isDigit : ∀ d, d < 10 → (Nat.digitChar d).isDigit = true := by
  decide

theorem digitChar_toNat : ∀ d, d < 10 → (Nat.digitChar d).toNat - 48 = d := by
  decide

theorem digitsVal_append_singleton (cs : List Char) (c : Char) :
    digitsVal (cs ++ [c]) = 10 * digitsVal cs + (c.toNat - 48) := by
  simp [digitsVal, List.foldl_append]

theorem digitsVal_reverse_map (L : List Nat) (h : ∀ d ∈ L, d < 10) :
    digitsVal (L.reverse.map Nat.digitChar) = valLSB L := by
  induction L with
  | nil => simp [digitsVal, valLSB]
  | cons d ds ih =>
    have hd := h d (List.mem_cons_self d ds)
    rw [List.reverse_cons, List.map_append, List.map_singleton,
      digitsVal_append_singleton, ih (fun x hx => h x (List.mem_cons_of_mem d hx)),
      digitChar_toNat d hd, valLSB]
    omega

theorem natDigits_isDigit (n : Nat) : ∀ c ∈ natDigits n, c.isDigit = true := by
  intro c hc
  simp only [natDigits, List.mem_map, List.mem_reverse] at hc
  obtain ⟨d, hd, rfl⟩ := hc
  exact digitChar_isDigit d (digitsRevAux_lt_ten n n d hd)

theorem natDigits_val (n : Nat) : digitsVal (natDigits n) = n := by
  rw [natDigits, digitsVal_reverse_map _ (digitsRevAux_lt_ten n n),
    digitsRevAux_val n n le_rfl]

theorem natDigits_length_le {n w : Nat} (h : n < 10 ^ w) :
    (natDigits n).length ≤ w := by
  rw [natDigits, List.length_map, List.length_reverse]
  exact digitsRevAux_length n n w le_rfl h

theorem padNum_length {w n : Nat} (h : n < 10 ^ w) :
    (padNum w n).length = w := by
  have := natDigits_length_le h
  simp only [padNum, List.length_append, List.length_replicate]
  omega

theorem padNum_isDigit (w n : Nat) : ∀ c ∈ padNum w n, c.isDigit = true := by
  intro c hc
  rw [padNum, List.mem_append] at hc
  rcases hc with hc | hc
  · rw [List.eq_of_mem_replicate hc]; rfl
  · exact natDigits_isDigit n c hc

theorem digitsVal_replicate_zero (k : Nat) (cs : List Char) :
    digitsVal (List.replicate k '0' ++ cs) = digitsVal cs := by
  induction k with
  | zero => simp
  | succ k ih =>
    have h0 : (10 * 0 + ('0'.toNat - 48)) = 0 := rfl
    have hstep : digitsVal ('0' :: (List.replicate k '0' ++ cs)) =
        digitsVal (List.replicate k '0' ++ cs) := by
      simp only [digitsVal, List.foldl_cons, h0]
    rw [List.replicate_succ, List.cons_append, hstep, ih]

theorem digitsVal_padNum (w n : Nat) : digitsVal (padNum w n) = n := by
  rw [padNum, digitsVal_replicate_zero, natDigits_val]

/-- Consume exactly `w` digit characters (the behaviour of a fixed-width
`strptime`/`fromisoformat` numeric field). -/
def takeExactDigits : Nat → List Char → Option (List Char × List Char)
  | 0, cs => some ([], cs)
  | _ + 1, [] => none
  | w + 1, c :: cs =>
    if c.isDigit then (takeExactDigits w cs).map fun p => (c :: p.1, p.2)
    else none

/-- Parse a numeric field of exactly `w` digits. -/
def parseExactField (w : Nat) (cs : List Char) : Option (Nat × List Char) :=
  (takeExactDigits w cs).map fun p => (digitsVal p.1, p.2)

/-- Greedily consume up to `w` digit characters (the behaviour of a
1-to-`w`-digit `strptime` numeric field such as `0[1-9]|[1-9]` for months). -/
def takeFlexDigits : Nat → List Char → List Char × List Char
  | 0, cs => ([], cs)
  | _ + 1, [] => ([], [])
  | w + 1, c :: cs =>
    if c.isDigit then
      let p := takeFlexDigits w cs
      (c :: p.1, p.2)
    else ([], c :: cs)

/-- Parse a numeric field of 1 to `w` digits. -/
def parseFlexField (w : Nat) (cs : List Char) : Option (Nat × List Char) :=
  match takeFlexDigits w cs with
  | ([], _) => none
  | (ds, rest) => some (digitsVal ds, rest)

/-- Consume one expected literal character (a `strptime` format separator). -/
def expectChar (c : Char) : List Char → Option (List Char)
  | [] => none
  | x :: xs => if x = c then some xs else none

theorem takeExactDigits_append (ds : List Char) :
    ∀ (rest : List Char), (∀ c ∈ ds, c.isDigit = true) →
    takeExactDigits ds.length (ds ++ rest) = some (ds, rest) := by
  induction ds with
  | nil => intro rest _; rfl
  | cons c cs ih =>
    intro rest h
    have hih := ih rest fun x hx => h x (List.mem_cons_of_mem c hx)
    simp only [List.length_cons, List.cons_append, takeExactDigits,
      h c (List.mem_cons_self c cs), if_pos, ite_true]
    simp [List.append_eq, hih]

theorem takeExactDigits_eq_len {w : Nat} (ds rest : List Char)
    (h : ∀ c ∈ ds, c.isDigit = true) (hw : ds.length = w) :
    takeExactDigits w (ds ++ rest) = some (ds, rest) := by
  subst hw
  exact takeExactDigits_append ds rest h

theorem parseExactField_pad {w n : Nat} (rest : List Char) (h : n < 10 ^ w) :
    parseExactField w (padNum w n ++ rest) = some (n, rest) := by
  rw [parseExactField,
    takeExactDigits_eq_len (padNum w n) rest (padNum_isDigit w n) (padNum_length h),
    Option.map_some', digitsVal_padNum]

theorem takeFlexDigits_append (ds : List Char) :
    ∀ (w : Nat) (rest : List Char), (∀ c ∈ ds, c.isDigit = true) →
    ds.length ≤ w → (∀ c, rest.head? = some c → c.isDigit = false) →
    takeFlexDigits w (ds ++ rest) = (ds, rest) := by
  induction ds with
  | nil =>
    intro w rest _ _ hrest
    cases w with
    | zero => rfl
    | succ w =>
      cases rest with
      | nil => rfl
      | cons c cs =>
        simp only [List.nil_append, takeFlexDigits, hrest c rfl,
          Bool.false_eq_true, if_neg, ite_false]
  | cons c cs ih =>
    intro w rest h hlen hrest
    cases w with
    | zero => simp at hlen
    | succ w =>
      have hih := ih w rest (fun x hx => h x (List.mem_cons_of_mem c hx))
        (by simpa using hlen) hrest
      simp only [List.cons_append, takeFlexDigits,
        h c (List.mem_cons_self c cs), if_pos, ite_true]
      simp [List.append_eq, hih]

theorem parseFlexField_pad {w n : Nat} (rest : List Char) (h : n < 10 ^ w)
    (hw : 0 < w) (hrest : ∀ c, rest.head? = some c → c.isDigit = false) :
    parseFlexField w (padNum w n ++ rest) = some (n, rest) := by
  have hne : padNum w n ≠ [] := by
    intro habs
    have := padNum_length h
    rw [habs] at this
    simp at this
    omega
  cases hp : padNum w n with
  | nil => exact absurd hp hne
  | cons x xs =>
    have ht := takeFlexDigits_append (padNum w n) w rest
      (padNum_isDigit w n) (le_of_eq (padNum_length h)) hrest
    rw [hp] at ht
    rw [parseFlexField, ht]
    show some (digitsVal (x :: xs), rest) = some (n, rest)
    rw [← hp, digitsVal_padNum]

/-- Gregorian leap-year rule (as in Python `calendar`/`datetime`). -/
def isLeapYear (y : Nat) : Bool :=
  (y % 4 == 0 && y % 100 != 0) || y % 400 == 0

/-- Days in a month of a given year. -/
def daysInMonth (y m : Nat) : Nat :=
  if m = 2 then (if isLeapYear y then 29 else 28)
  else if m = 4 ∨ m = 6 ∨ m = 9 ∨ m = 11 then 30
  else 31

/-- A valid `datetime.date`: year in `MINYEAR..MAXYEAR`, month 1..12, day in
the month's range (what `datetime`/`strptime` accept). -/
abbrev validDate (y m d : Nat) : Prop :=
  1 ≤ y ∧ y ≤ 9999 ∧ 1 ≤ m ∧ m ≤ 12 ∧ 1 ≤ d ∧ d ≤ daysInMonth y m

/-- Days in the months of year `y` strictly before month `m`. -/
def daysBeforeMonth (y m : Nat) : Nat :=
  ((List.range (m - 1)).map fun i => daysInMonth y (i + 1)).sum

/-- Python `date.toordinal()`: day number of the proleptic Gregorian
calendar, with 0001-01-01 as day 1 (`datetime._ymd2ord`). -/
def toOrdinal (y m d : Nat) : Nat :=
  365 * (y - 1) + (y - 1) / 4 - (y - 1) / 100 + (y - 1) / 400 +
    daysBeforeMonth y m + d

/-- Python `date` comparison: lexicographic on (year, month, day). -/
def dateLt (a b : Nat × Nat × Nat) : Bool :=
  Nat.blt a.1 b.1 ||
    (a.1 == b.1 && (Nat.blt a.2.1 b.2.1 ||
      (a.2.1 == b.2.1 && Nat.blt a.2.2 b.2.2)))

/-- `YYYY-MM-DD` (the output of `strftime("%Y-%m-%d")`; `%Y` is zero-padded
to four digits here — C libraries differ for years below 1000, which are
outside every claim's inputs). -/
def mkISOChars (y m d : Nat) : List Char :=
  padNum 4 y ++ '-' :: (padNum 2 m ++ '-' :: padNum 2 d)

/-- `YYYY-MM-DD` as a `String`. -/
def mkISOString (y m d : Nat) : String :=
  String.mk (mkISOChars y m d)

/-- `DD.MM.YYYY`. -/
def mkDotChars (y m d : Nat) : List Char :=
  padNum 2 d ++ '.' :: (padNum 2 m ++ '.' :: padNum 4 y)

/-- `MM/DD/YYYY`. -/
def mkSlashUSChars (y m d : Nat) : List Char :=
  padNum 2 m ++ '/' :: (padNum 2 d ++ '/' :: padNum 4 y)

/-- `YYYY/MM/DD`. -/
def mkSlashYMDChars (y m d : Nat) : List Char :=
  padNum 4 y ++ '/' :: (padNum 2 m ++ '/' :: padNum 2 d)

/-- `YYYY-MM-DDTHH:MM:SS` (an ISO 8601 date-time string). -/
def mkISOTimeChars (y m d hh mi ss : Nat) : List Char :=
  mkISOChars y m d ++ 'T' :: (padNum 2 hh ++ ':' :: (padNum 2 mi ++ ':' :: padNum 2 ss))

/-- The `HH:MM[:SS]` tail accepted after the date by
`datetime.fromisoformat`. -/
def parseTimeTail (cs : List Char) : Option Unit := do
  let p1 ← parseExactField 2 cs
  let r2 ← expectChar ':' p1.2
  let p2 ← parseExactField 2 r2
  match p2.2 with
  | [] => if p1.1 < 24 ∧ p2.1 < 60 then some () else none
  | ':' :: r4 => do
    let p3 ← parseExactField 2 r4
    match p3.2 with
    | [] => if p1.1 < 24 ∧ p2.1 < 60 ∧ p3.1 < 60 then some () else none
    | _ => none
  | _ => none

/-- Model of `datetime.datetime.fromisoformat` restricted to the shapes the
spec documents: a zero-padded `YYYY-MM-DD`, optionally followed by `T` or a
space and `HH:MM[:SS]`.  Returns the date components of the resulting
datetime (only they reach `strftime("%Y-%m-%d")`). -/
def fromisoformatModel (cs : List Char) : Option (Nat × Nat × Nat) := do
  let py ← parseExactField 4 cs
  let r2 ← expectChar '-' py.2
  let pm ← parseExactField 2 r2
  let r4 ← expectChar '-' pm.2
  let pd ← parseExactField 2 r4
  match pd.2 with
  | [] => if validDate py.1 pm.1 pd.1 then some (py.1, pm.1, pd.1) else none
  | c :: rest =>
    if c = 'T' ∨ c = ' ' then
      match parseTimeTail rest with
      | some _ => if validDate py.1 pm.1 pd.1 then some (py.1, pm.1, pd.1) else none
      | none => none
    else none

/-- `strptime(s, "%Y-%m-%d")`: a 4-digit year, 1-2 digit month and day
(CPython's `TimeRE` patterns), full consumption, valid calendar date. -/
def parse_Ymd_dash (cs : List Char) : Option (Nat × Nat × Nat) := do
  let py ← parseExactField 4 cs
  let r2 ← expectChar '-' py.2
  let pm ← parseFlexField 2 r2
  let r4 ← expectChar '-' pm.2
  let pd ← parseFlexField 2 r4
  if pd.2 = [] ∧ validDate py.1 pm.1 pd.1 then some (py.1, pm.1, pd.1) else none

/-- `strptime(s, "%d.%m.%Y")`. -/
def parse_dmY_dot (cs : List Char) : Option (Nat × Nat × Nat) := do
  let pd ← parseFlexField 2 cs
  let r2 ← expectChar '.' pd.2
  let pm ← parseFlexField 2 r2
  let r4 ← expectChar '.' pm.2
  let py ← parseExactField 4 r4
  if py.2 = [] ∧ validDate py.1 pm.1 pd.1 then some (py.1, pm.1, pd.1) else none

/-- `strptime(s, "%m/%d/%Y")`. -/
def parse_mdY_slash (cs : List Char) : Option (Nat × Nat × Nat) := do
  let pm ← parseFlexField 2 cs
  let r2 ← expectChar '/' pm.2
  let pd ← parseFlexField 2 r2
  let r4 ← expectChar '/' pd.2
  let py ← parseExactField 4 r4
  if py.2 = [] ∧ validDate py.1 pm.1 pd.1 then some (py.1, pm.1, pd.1) else none

/-- `strptime(s, "%Y/%m/%d")`. -/
def parse_Ymd_slash (cs : List Char) : Option (Nat × Nat × Nat) := do
  let py ← parseExactField 4 cs
  let r2 ← expectChar '/' py.2
  let pm ← parseFlexField 2 r2
  let r4 ← expectChar '/' pm.2
  let pd ← parseFlexField 2 r4
  if pd.2 = [] ∧ validDate py.1 pm.1 pd.1 then some (py.1, pm.1, pd.1) else none

/-- The `for fmt in (...)` loop of `format_date` (`utils.py:63-68`): the four
formats are tried in order, first success wins. -/
def strptimeChain (cs : List Char) : Option (Nat × Nat × Nat) :=
  parse_Ymd_dash cs <|> parse_dmY_dot cs <|> parse_mdY_slash cs <|>
    parse_Ymd_slash cs

/-- The inputs `format_date` accepts: a string, a `datetime.date`, a
`datetime.datetime`, or a value of any other type (rejected). -/
inductive DateInput where
  | pyStr (s : String)
  | pyDate (y m d : Nat)
  | pyDateTime (y m d hh mi ss : Nat)
  | pyOther (typeName : String)

/-- `format_date` (`utils.py:43-78`): strings go through `fromisoformat`,
then the four `strptime` formats; when none matches, the inner
`ValueError("Could not parse date: ...")` is caught by the enclosing
`except Exception` and re-raised as `ValueError("Invalid date format: ...")`
(single quotes of the source message omitted).  `date`/`datetime` objects are
formatted directly; any other type raises `ValueError`. -/
def format_date : DateInput → Except PyExc String
  | .pyStr s =>
    match fromisoformatModel s.data with
    | some (y, m, d) => .ok (mkISOString y m d)
    | none =>
      match strptimeChain s.data with
      | some (y, m, d) => .ok (mkISOString y m d)
      | none => .error (.valueError ("Invalid date format: " ++ s))
  | .pyDate y m d => .ok (mkISOString y m d)
  | .pyDateTime y m d _ _ _ => .ok (mkISOString y m d)
  | .pyOther t =>
    .error (.valueError ("Expected date string or date object, got " ++ t))

/-- The documented input set of `format_date`, together with the calendar
date each input denotes: date/datetime objects carrying (y, m, d), and
strings in `YYYY-MM-DD`, `DD.MM.YYYY`, `MM/DD/YYYY`, `YYYY/MM/DD`, or ISO
8601 date-time form spelling out the valid calendar date (y, m, d). -/
def DenotesDate : DateInput → Nat → Nat → Nat → Prop
  | .pyStr s, y, m, d => validDate y m d ∧
      (s.data = mkISOChars y m d ∨ s.data = mkDotChars y m d ∨
       s.data = mkSlashUSChars y m d ∨ s.data = mkSlashYMDChars y m d ∨
       ∃ hh mi ss, hh < 24 ∧ mi < 60 ∧ ss < 60 ∧
         s.data = mkISOTimeChars y m d hh mi ss)
  | .pyDate y' m' d', y, m, d => validDate y m d ∧ y' = y ∧ m' = m ∧ d' = d
  | .pyDateTime y' m' d' _ _ _, y, m, d =>
      validDate y m d ∧ y' = y ∧ m' = m ∧ d' = d
  | .pyOther _, _, _, _ => False

theorem some_bind {α β : Type} (a : α) (f : α → Option β) :
    (some a >>= f) = f a := rfl

theorem expectChar_cons_self (c : Char) (xs : List Char) :
    expectChar c (c :: xs) = some xs := by
  simp [expectChar]

theorem parseExactField_pad_nil {w n : Nat} (h : n < 10 ^ w) :
    parseExactField w (padNum w n) = some (n, []) := by
  have := @parseExactField_pad w n [] h
  rwa [List.append_nil] at this

theorem parseFlexField_pad_nil {w n : Nat} (h : n < 10 ^ w) (hw : 0 < w) :
    parseFlexField w (padNum w n) = some (n, []) := by
  have := @parseFlexField_pad w n [] h hw (by intro c hc; simp at hc)
  rwa [List.append_nil] at this

theorem head_not_digit_cons {c : Char} (h : c.isDigit = false)
    (xs : List Char) : ∀ x, (c :: xs).head? = some x → x.isDigit = false := by
  intro x hx
  simp only [List.head?_cons, Option.some.injEq] at hx
  rw [← hx]
  exact h

theorem daysInMonth_le (y m : Nat) : daysInMonth y m ≤ 31 := by
  rw [daysInMonth]
  split
  · split <;> omega
  · split <;> omega

theorem validDate_lt_bounds {y m d : Nat} (hv : validDate y m d) :
    y < 10 ^ 4 ∧ m < 10 ^ 2 ∧ d < 10 ^ 2 := by
  obtain ⟨h1, h2, h3, h4, h5, h6⟩ := hv
  have h7 := daysInMonth_le y m
  norm_num
  omega

theorem fromisoformatModel_mkISO {y m d : Nat} (hv : validDate y m d) :
    fromisoformatModel (mkISOChars y m d) = some (y, m, d) := by
  obtain ⟨hy, hm, hd⟩ := validDate_lt_bounds hv
  simp only [fromisoformatModel, mkISOChars, parseExactField_pad _ hy,
    some_bind, expectChar_cons_self, parseExactField_pad _ hm,
    parseExactField_pad_nil hd, if_pos hv]

theorem parse_dmY_dot_mkDot {y m d : Nat} (hv : validDate y m d) :
    parse_dmY_dot (mkDotChars y m d) = some (y, m, d) := by
  obtain ⟨hy, hm, hd⟩ := validDate_lt_bounds hv
  have hdot : ('.' : Char).isDigit = false := rfl
  simp only [parse_dmY_dot, mkDotChars,
    parseFlexField_pad _ hd (by norm_num) (head_not_digit_cons hdot _),
    some_bind, expectChar_cons_self,
    parseFlexField_pad _ hm (by norm_num) (head_not_digit_cons hdot _),
    parseExactField_pad_nil hy]
  simp [hv]

theorem parse_mdY_slash_mkSlashUS {y m d : Nat} (hv : validDate y m d) :
    parse_mdY_slash (mkSlashUSChars y m d) = some (y, m, d) := by
  obtain ⟨hy, hm, hd⟩ := validDate_lt_bounds hv
  have hsl : ('/' : Char).isDigit = false := rfl
  simp only [parse_mdY_slash, mkSlashUSChars,
    parseFlexField_pad _ hm (by norm_num) (head_not_digit_cons hsl _),
    some_bind, expectChar_cons_self,
    parseFlexField_pad _ hd (by norm_num) (head_not_digit_cons hsl _),
    parseExactField_pad_nil hy]
  simp [hv]

theorem parse_Ymd_slash_mkSlashYMD {y m d : Nat} (hv : validDate y m d) :
    parse_Ymd_slash (mkSlashYMDChars y m d) = some (y, m, d) := by
  obtain ⟨hy, hm, hd⟩ := validDate_lt_bounds hv
  have hsl : ('/' : Char).isDigit = false := rfl
  simp only [parse_Ymd_slash, mkSlashYMDChars, parseExactField_pad _ hy,
    some_bind, expectChar_cons_self,
    parseFlexField_pad _ hm (by norm_num) (head_not_digit_cons hsl _),
    parseFlexField_pad_nil hd (by norm_num)]
  simp [hv]

theorem parse_Ymd_dash_mkISO {y m d : Nat} (hv : validDate y m d) :
    parse_Ymd_dash (mkISOChars y m d) = some (y, m, d) := by
  obtain ⟨hy, hm, hd⟩ := validDate_lt_bounds hv
  have hda : ('-' : Char).isDigit = false := rfl
  simp only [parse_Ymd_dash, mkISOChars, parseExactField_pad _ hy,
    some_bind, expectChar_cons_self,
    parseFlexField_pad _ hm (by norm_num) (head_not_digit_cons hda _),
    parseFlexField_pad_nil hd (by norm_num)]
  simp [hv]

theorem fromisoformatModel_mkISOTime {y m d hh mi ss : Nat}
    (hv : validDate y m d) (hhh : hh < 24) (hmi : mi < 60) (hss : ss < 60) :
    fromisoformatModel (mkISOTimeChars y m d hh mi ss) = some (y, m, d) := by
  obtain ⟨hy, hm, hd⟩ := validDate_lt_bounds hv
  have hhh2 : hh < 10 ^ 2 := by omega
  have hmi2 : mi < 10 ^ 2 := by omega
  have hss2 : ss < 10 ^ 2 := by omega
  have htime : parseTimeTail (padNum 2 hh ++ ':' :: (padNum 2 mi ++ ':' :: padNum 2 ss)) =
      some () := by
    simp only [parseTimeTail, parseExactField_pad _ hhh2, some_bind,
      expectChar_cons_self, parseExactField_pad _ hmi2,
      parseExactField_pad_nil hss2]
    simp [hhh, hmi, hss]
  simp only [mkISOTimeChars, mkISOChars, List.append_assoc, List.cons_append]
  simp only [fromisoformatModel, parseExactField_pad _ hy, some_bind,
    expectChar_cons_self, parseExactField_pad _ hm]
  rw [show padNum 2 d ++ 'T' :: (padNum 2 hh ++ ':' :: (padNum 2 mi ++ ':' :: padNum 2 ss)) =
    padNum 2 d ++ ('T' :: (padNum 2 hh ++ ':' :: (padNum 2 mi ++ ':' :: padNum 2 ss))) from rfl]
  simp only [parseExactField_pad _ hd, some_bind]
  simp [htime, hv]

theorem none_bind {α β : Type} (f : α → Option β) :
    ((none : Option α) >>= f) = none := rfl

theorem expectChar_cons_ne {x c : Char} (h : x ≠ c) (xs : List Char) :
    expectChar c (x :: xs) = none := by
  simp [expectChar, h]

theorem digit_ne_nondigit {c s : Char} (h : c.isDigit = true)
    (hs : s.isDigit = false) : c ≠ s := by
  intro he
  rw [he, hs] at h
  exact absurd h (by simp)

theorem takeExactDigits_stops :
    ∀ (ds : List Char) (w : Nat) (c : Char) (rest : List Char),
    (∀ x ∈ ds, x.isDigit = true) → c.isDigit = false → ds.length < w →
    takeExactDigits w (ds ++ c :: rest) = none := by
  intro ds
  induction ds with
  | nil =>
    intro w c rest _ hc hw
    cases w with
    | zero => omega
    | succ w => simp [takeExactDigits, hc]
  | cons d ds ih =>
    intro w c rest h hc hw
    cases w with
    | zero => omega
    | succ w =>
      have hih := ih w c rest (fun x hx => h x (List.mem_cons_of_mem d hx)) hc
        (by simp at hw; omega)
      simp only [List.cons_append, takeExactDigits,
        h d (List.mem_cons_self d ds), if_pos, ite_true]
      simp [List.append_eq, hih]

theorem parseExactField_stops {w : Nat} (ds : List Char) (c : Char)
    (rest : List Char) (h : ∀ x ∈ ds, x.isDigit = true)
    (hc : c.isDigit = false) (hw : ds.length < w) :
    parseExactField w (ds ++ c :: rest) = none := by
  rw [parseExactField, takeExactDigits_stops ds w c rest h hc hw]
  rfl

theorem parseExactField4_pad2_none {n : Nat} (c : Char) (rest : List Char)
    (hn : n < 10 ^ 2) (hc : c.isDigit = false) :
    parseExactField 4 (padNum 2 n ++ c :: rest) = none :=
  parseExactField_stops (padNum 2 n) c rest (padNum_isDigit 2 n) hc
    (by rw [padNum_length hn]; omega)

theorem takeFlexDigits_two (a b : Char) (rest : List Char)
    (ha : a.isDigit = true) (hb : b.isDigit = true) :
    takeFlexDigits 2 (a :: b :: rest) = ([a, b], rest) := by
  simp [takeFlexDigits, ha, hb]

theorem parseFlexField_two (a b : Char) (rest : List Char)
    (ha : a.isDigit = true) (hb : b.isDigit = true) :
    parseFlexField 2 (a :: b :: rest) = some (digitsVal [a, b], rest) := by
  rw [parseFlexField, takeFlexDigits_two a b rest ha hb]

theorem parse_dmY_dot_three_digits {a b c : Char} (rest : List Char)
    (ha : a.isDigit = true) (hb : b.isDigit = true) (hc : c.isDigit = true) :
    parse_dmY_dot (a :: b :: c :: rest) = none := by
  simp only [parse_dmY_dot, parseFlexField_two a b (c :: rest) ha hb,
    some_bind,
    expectChar_cons_ne (@digit_ne_nondigit c '.' hc (by decide)) _, none_bind]

theorem parse_mdY_slash_three_digits {a b c : Char} (rest : List Char)
    (ha : a.isDigit = true) (hb : b.isDigit = true) (hc : c.isDigit = true) :
    parse_mdY_slash (a :: b :: c :: rest) = none := by
  simp only [parse_mdY_slash, parseFlexField_two a b (c :: rest) ha hb,
    some_bind,
    expectChar_cons_ne (@digit_ne_nondigit c '/' hc (by decide)) _, none_bind]

theorem pad4_four_digits {y : Nat} (hy : y < 10 ^ 4) :
    ∃ a b c e, padNum 4 y = [a, b, c, e] ∧
      a.isDigit = true ∧ b.isDigit = true ∧ c.isDigit = true := by
  have hlen := padNum_length hy
  have hdig := padNum_isDigit 4 y
  rcases hl : padNum 4 y with _ | ⟨a, _ | ⟨b, _ | ⟨c, _ | ⟨e, _ | ⟨f, t⟩⟩⟩⟩⟩ <;>
    rw [hl] at hlen <;> simp at hlen
  rw [hl] at hdig
  exact ⟨a, b, c, e, rfl, hdig a (by simp), hdig b (by simp), hdig c (by simp)⟩

theorem fromisoformatModel_mkDot_none {y m d : Nat} (hd : d < 10 ^ 2) :
    fromisoformatModel (mkDotChars y m d) = none := by
  rw [mkDotChars]
  simp only [fromisoformatModel,
    parseExactField4_pad2_none '.' _ hd (by decide), none_bind]

theorem parse_Ymd_dash_mkDot_none {y m d : Nat} (hd : d < 10 ^ 2) :
    parse_Ymd_dash (mkDotChars y m d) = none := by
  rw [mkDotChars]
  simp only [parse_Ymd_dash,
    parseExactField4_pad2_none '.' _ hd (by decide), none_bind]

theorem fromisoformatModel_mkSlashUS_none {y m d : Nat} (hm : m < 10 ^ 2) :
    fromisoformatModel (mkSlashUSChars y m d) = none := by
  rw [mkSlashUSChars]
  simp only [fromisoformatModel,
    parseExactField4_pad2_none '/' _ hm (by decide), none_bind]

theorem parse_Ymd_dash_mkSlashUS_none {y m d : Nat} (hm : m < 10 ^ 2) :
    parse_Ymd_dash (mkSlashUSChars y m d) = none := by
  rw [mkSlashUSChars]
  simp only [parse_Ymd_dash,
    parseExactField4_pad2_none '/' _ hm (by decide), none_bind]

theorem parse_dmY_dot_mkSlashUS_none {y m d : Nat} (hm : m < 10 ^ 2) :
    parse_dmY_dot (mkSlashUSChars y m d) = none := by
  rw [mkSlashUSChars]
  simp only [parse_dmY_dot,
    parseFlexField_pad _ hm (by norm_num) (@head_not_digit_cons '/' (by decide) _),
    some_bind, expectChar_cons_ne (by decide : ('/' : Char) ≠ '.') _, none_bind]

theorem fromisoformatModel_mkSlashYMD_none {y m d : Nat} (hy : y < 10 ^ 4) :
    fromisoformatModel (mkSlashYMDChars y m d) = none := by
  rw [mkSlashYMDChars]
  simp only [fromisoformatModel, parseExactField_pad _ hy, some_bind,
    expectChar_cons_ne (by decide : ('/' : Char) ≠ '-') _, none_bind]

theorem parse_Ymd_dash_mkSlashYMD_none {y m d : Nat} (hy : y < 10 ^ 4) :
    parse_Ymd_dash (mkSlashYMDChars y m d) = none := by
  rw [mkSlashYMDChars]
  simp only [parse_Ymd_dash, parseExactField_pad _ hy, some_bind,
    expectChar_cons_ne (by decide : ('/' : Char) ≠ '-') _, none_bind]

theorem parse_dmY_dot_mkSlashYMD_none {y m d : Nat} (hy : y < 10 ^ 4) :
    parse_dmY_dot (mkSlashYMDChars y m d) = none := by
  obtain ⟨a, b, c, e, hpad, ha, hb, hc⟩ := pad4_four_digits hy
  rw [mkSlashYMDChars, hpad]
  exact parse_dmY_dot_three_digits _ ha hb hc

theorem parse_mdY_slash_mkSlashYMD_none {y m d : Nat} (hy : y < 10 ^ 4) :
    parse_mdY_slash (mkSlashYMDChars y m d) = none := by
  obtain ⟨a, b, c, e, hpad, ha, hb, hc⟩ := pad4_four_digits hy
  rw [mkSlashYMDChars, hpad]
  exact parse_mdY_slash_three_digits _ ha hb hc

theorem strptimeChain_mkDot {y m d : Nat} (hv : validDate y m d) :
    strptimeChain (mkDotChars y m d) = some (y, m, d) := by
  obtain ⟨hy, hm, hd⟩ := validDate_lt_bounds hv
  rw [strptimeChain, parse_Ymd_dash_mkDot_none hd, parse_dmY_dot_mkDot hv]
  simp

theorem strptimeChain_mkSlashUS {y m d : Nat} (hv : validDate y m d) :
    strptimeChain (mkSlashUSChars y m d) = some (y, m, d) := by
  obtain ⟨hy, hm, hd⟩ := validDate_lt_bounds hv
  rw [strptimeChain, parse_Ymd_dash_mkSlashUS_none hm,
    parse_dmY_dot_mkSlashUS_none hm, parse_mdY_slash_mkSlashUS hv]
  simp

theorem strptimeChain_mkSlashYMD {y m d : Nat} (hv : validDate y m d) :
    strptimeChain (mkSlashYMDChars y m d) = some (y, m, d) := by
  obtain ⟨hy, hm, hd⟩ := validDate_lt_bounds hv
  rw [strptimeChain, parse_Ymd_dash_mkSlashYMD_none hy,
    parse_dmY_dot_mkSlashYMD_none hy, parse_mdY_slash_mkSlashYMD_none hy,
    parse_Ymd_slash_mkSlashYMD hv]
  simp

/-- C5: `format_date` is total over the documented format set — ISO 8601
date and date-time strings, `YYYY-MM-DD`, `DD.MM.YYYY`, `MM/DD/YYYY`,
`YYYY/MM/DD`, and date/datetime objects, all denoting valid calendar dates —
and on every such input it returns, without raising, exactly the `YYYY-MM-DD`
rendering of the denoted date; in particular it is the identity on strings
already in `YYYY-MM-DD` form. -/
theorem format_date_total_and_identity :
    (∀ inp y m d, DenotesDate inp y m d →
      format_date inp = .ok (mkISOString y m d)) ∧
    (∀ y m d, validDate y m d →
      format_date (.pyStr (mkISOString y m d)) = .ok (mkISOString y m d)) := by
  constructor
  · intro inp y m d hden
    cases inp with
    | pyDate y' m' d' =>
      obtain ⟨hv, rfl, rfl, rfl⟩ := hden
      rfl
    | pyDateTime y' m' d' hh mi ss =>
      obtain ⟨hv, rfl, rfl, rfl⟩ := hden
      rfl
    | pyOther t => exact absurd hden (by simp [DenotesDate])
    | pyStr s =>
      obtain ⟨hv, hcase⟩ := hden
      obtain ⟨hy, hm, hd⟩ := validDate_lt_bounds hv
      rcases hcase with hc | hc | hc | hc | ⟨hh, mi, ss, h1, h2, h3, hc⟩
      · simp [format_date, hc, fromisoformatModel_mkISO hv]
      · simp only [format_date, hc, fromisoformatModel_mkDot_none hd,
          strptimeChain_mkDot hv]
      · simp only [format_date, hc, fromisoformatModel_mkSlashUS_none hm,
          strptimeChain_mkSlashUS hv]
      · simp only [format_date, hc, fromisoformatModel_mkSlashYMD_none hy,
          strptimeChain_mkSlashYMD hv]
      · simp [format_date, hc, fromisoformatModel_mkISOTime hv h1 h2 h3]
  · intro y m d hv
    have hdata : (mkISOString y m d).data = mkISOChars y m d := rfl
    simp only [format_date, hdata, fromisoformatModel_mkISO hv]

theorem format_date_total_and_identity_witness :
    validDate 2024 3 15 ∧
    format_date (.pyStr "2024-03-15") = .ok "2024-03-15" ∧
    DenotesDate (.pyStr "15.03.2024") 2024 3 15 ∧
    format_date (.pyStr "15.03.2024") = .ok "2024-03-15" ∧
    DenotesDate (.pyStr "03/15/2024") 2024 3 15 ∧
    format_date (.pyStr "03/15/2024") = .ok "2024-03-15" ∧
    DenotesDate (.pyStr "2024/03/15") 2024 3 15 ∧
    format_date (.pyStr "2024/03/15") = .ok "2024-03-15" := by
  have hv : validDate 2024 3 15 := by decide
  have hdot : DenotesDate (.pyStr "15.03.2024") 2024 3 15 :=
    ⟨hv, Or.inr (Or.inl rfl)⟩
  have hus : DenotesDate (.pyStr "03/15/2024") 2024 3 15 :=
    ⟨hv, Or.inr (Or.inr (Or.inl rfl))⟩
  have hymd : DenotesDate (.pyStr "2024/03/15") 2024 3 15 :=
    ⟨hv, Or.inr (Or.inr (Or.inr (Or.inl rfl)))⟩
  exact ⟨hv, format_date_total_and_identity.2 2024 3 15 hv,
    hdot, format_date_total_and_identity.1 (.pyStr "15.03.2024") 2024 3 15 hdot,
    hus, format_date_total_and_identity.1 (.pyStr "03/15/2024") 2024 3 15 hus,
    hymd, format_date_total_and_identity.1 (.pyStr "2024/03/15") 2024 3 15 hymd⟩

theorem format_date_mkISO {y m d : Nat} (hv : validDate y m d) :
    format_date (.pyStr (mkISOString y m d)) = .ok (mkISOString y m d) := by
  have hdata : (mkISOString y m d).data = mkISOChars y m d := rfl
  simp only [format_date, hdata, fromisoformatModel_mkISO hv]

theorem parse_Ymd_dash_mkISOString {y m d : Nat} (hv : validDate y m d) :
    parse_Ymd_dash (mkISOString y m d).data = some (y, m, d) := by
  have hdata : (mkISOString y m d).data = mkISOChars y m d := rfl
  rw [hdata, parse_Ymd_dash_mkISO hv]

/-- Message of the max-interval `ValueError` of `validate_date_range`
(`utils.py:125-128`). -/
def intervalExceededMsg (mx diff : Int) (fstart fend : String) : String :=
  "Date range exceeds maximum interval of " ++ toString mx ++ " days. " ++
    "Requested: " ++ toString diff ++ " days (" ++ fstart ++ " to " ++ fend ++ ")"

/-- `validate_date_range` (`utils.py:81-130`).  `datetime.date.today()` is
passed explicitly as `today`.  Both dates are formatted with `format_date`,
re-parsed with `strptime("%Y-%m-%d")` (a failure there would raise
`ValueError`, modelled in the final branch; it is unreachable for formatted
dates), compared as (year, month, day) triples, and the day difference
`(end - start).days` is the ordinal difference. -/
def validate_date_range (today : Nat × Nat × Nat)
    (start_date end_date : Option DateInput)
    (max_interval_days : Option Int) : Except PyExc (String × String) :=
  let endVal : DateInput := match end_date with
    | none => .pyDate today.1 today.2.1 today.2.2
    | some e => e
  match format_date endVal with
  | .error e => .error e
  | .ok fend =>
    match start_date with
    | none => .ok (fend, fend)
    | some sd =>
      match format_date sd with
      | .error e => .error e
      | .ok fstart =>
        match parse_Ymd_dash fstart.data, parse_Ymd_dash fend.data with
        | some s, some e =>
          if dateLt e s then
            .error (.valueError ("Start date (" ++ fstart ++
              ") is after end date (" ++ fend ++ ")"))
          else
            match max_interval_days with
            | none => .ok (fstart, fend)
            | some mx =>
              let diff : Int := (toOrdinal e.1 e.2.1 e.2.2 : Int) -
                (toOrdinal s.1 s.2.1 s.2.2 : Int)
              if diff > mx then
                .error (.valueError (intervalExceededMsg mx diff fstart fend))
              else .ok (fstart, fend)
        | _, _ => .error (.valueError "time data does not match format")

/-- C8: `validate_date_range` fails with a `ValueError` naming both formatted
dates whenever the start date is after the end date, and with the
max-interval `ValueError` whenever the ordinal day difference exceeds a
caller-specified `max_interval_days`. -/
theorem validate_date_range_ordering_and_interval :
    (∀ (today : Nat × Nat × Nat) sy sm sd ey em ed,
      validDate sy sm sd → validDate ey em ed →
      dateLt (ey, em, ed) (sy, sm, sd) = true →
      validate_date_range today (some (.pyStr (mkISOString sy sm sd)))
        (some (.pyStr (mkISOString ey em ed))) none =
        .error (.valueError ("Start date (" ++ mkISOString sy sm sd ++
          ") is after end date (" ++ mkISOString ey em ed ++ ")"))) ∧
    (∀ (today : Nat × Nat × Nat) sy sm sd ey em ed (mx : Int),
      validDate sy sm sd → validDate ey em ed →
      dateLt (ey, em, ed) (sy, sm, sd) = false →
      (toOrdinal ey em ed : Int) - (toOrdinal sy sm sd : Int) > mx →
      validate_date_range today (some (.pyStr (mkISOString sy sm sd)))
        (some (.pyStr (mkISOString ey em ed))) (some mx) =
        .error (.valueError (intervalExceededMsg mx
          ((toOrdinal ey em ed : Int) - (toOrdinal sy sm sd : Int))
          (mkISOString sy sm sd) (mkISOString ey em ed)))) := by
  constructor
  · intro today sy sm sd ey em ed hvs hve hlt
    simp only [validate_date_range, format_date_mkISO hve, format_date_mkISO hvs,
      parse_Ymd_dash_mkISOString hvs, parse_Ymd_dash_mkISOString hve, hlt,
      if_pos, ite_true]
  · intro today sy sm sd ey em ed mx hvs hve hlt hdiff
    simp only [validate_date_range, format_date_mkISO hve, format_date_mkISO hvs,
      parse_Ymd_dash_mkISOString hvs, parse_Ymd_dash_mkISOString hve, hlt,
      Bool.false_eq_true, if_neg, ite_false]
    rw [if_pos hdiff]

theorem validate_date_range_ordering_and_interval_witness :
    validDate 2024 3 10 ∧ validDate 2024 1 1 ∧
    dateLt (2024, 1, 1) (2024, 3, 10) = true ∧
    validate_date_range (2024, 6, 1) (some (.pyStr "2024-03-10"))
      (some (.pyStr "2024-01-01")) none =
      .error (.valueError
        "Start date (2024-03-10) is after end date (2024-01-01)") ∧
    dateLt (2024, 3, 10) (2024, 1, 1) = false ∧
    (toOrdinal 2024 3 10 : Int) - (toOrdinal 2024 1 1 : Int) > 30 ∧
    validate_date_range (2024, 6, 1) (some (.pyStr "2024-01-01"))
      (some (.pyStr "2024-03-10")) (some 30) =
      .error (.valueError
        "Date range exceeds maximum interval of 30 days. Requested: 69 days (2024-01-01 to 2024-03-10)") := by
  refine ⟨by decide, by decide, by decide, ?_, by decide, by decide, ?_⟩
  · exact validate_date_range_ordering_and_interval.1 (2024, 6, 1)
      2024 3 10 2024 1 1 (by decide) (by decide) (by decide)
  · exact validate_date_range_ordering_and_interval.2 (2024, 6, 1)
      2024 1 1 2024 3 10 30 (by decide) (by decide) (by decide) (by decide)

/-- A pandas DataFrame as the claims observe it: named columns, rows of
cells, and an optional named index column (set by `set_index`). -/
structure DataFrame where
  columns : List String
  rows : List (List PyVal)
  index : Option (String × List PyVal)

/-- Model of `pd.to_datetime(column, errors="coerce")` on one cell: ISO date
strings become timestamps (`vDate`), timestamps stay, anything unparsable
becomes `NaT` (`vNull`).  (pandas accepts more string formats; no claim
exercises the conversion itself.) -/
def pdToDatetimeCell (v : PyVal) : PyVal :=
  match v with
  | .vStr s =>
    match fromisoformatModel s.data with
    | some (y, m, d) => .vDate y m d
    | none => .vNull
  | .vDate y m d => .vDate y m d
  | _ => .vNull

/-- Model of `pd.to_numeric(column, errors="coerce")` on one cell: numbers
stay, numeric strings are parsed, anything unparsable becomes NaN (`vNull`). -/
def pdToNumericCell (v : PyVal) : PyVal :=
  match v with
  | .vInt n => .vInt n
  | .vStr s => match pyInt s with | .ok n => .vInt n | .error _ => .vNull
  | _ => .vNull

/-- `astype("category")` retags the column dtype; cell values are unchanged. -/
def asCategoryCell (v : PyVal) : PyVal := v

/-- Applies `f` to every cell of the columns named `c` (pandas column
assignment touches every column with that label). -/
def mapColumn (df : DataFrame) (c : String) (f : PyVal → PyVal) : DataFrame :=
  ⟨df.columns,
   df.rows.map fun r => r.mapIdx fun i x =>
     if df.columns.get? i = some c then f x else x,
   df.index⟩

/-- The per-column-list loops of `normalize_dataframe`: each listed column
present in the frame is converted. -/
def applyCols (df : DataFrame) (cols : List String) (f : PyVal → PyVal) :
    DataFrame :=
  cols.foldl (fun d c => if c ∈ d.columns then mapColumn d c f else d) df

/-- `df.set_index(c, inplace=True)`: the column becomes the index and leaves
the column set. -/
def setIndex (df : DataFrame) (c : String) : DataFrame :=
  match df.columns.findIdx? fun x => x == c with
  | none => df
  | some i =>
    ⟨df.columns.eraseIdx i,
     df.rows.map fun r => r.eraseIdx i,
     some (c, df.rows.map fun r => r.getD i .vNull)⟩

/-- `normalize_dataframe` (`parsers.py:107-151`).  `df.copy()` is value
semantics here.  The guards `if date_columns:` (etc.) skip both `None` and
`[]`, which coincides with folding over the empty list; `if index_column and
index_column in df_copy.columns` requires a truthy (non-empty) present name. -/
def normalize_dataframe (df : DataFrame)
    (date_columns numeric_columns categorical_columns : Option (List String))
    (index_column : Option String) : DataFrame :=
  let d1 := applyCols df (date_columns.getD []) pdToDatetimeCell
  let d2 := applyCols d1 (numeric_columns.getD []) pdToNumericCell
  let d3 := applyCols d2 (categorical_columns.getD []) asCategoryCell
  match index_column with
  | some c => if c ≠ "" ∧ c ∈ d3.columns then setIndex d3 c else d3
  | none => d3

/-- C4: normalizing a Table with an empty Normalization Spec — no date,
numeric or categorical column lists and no index column — returns a Table
equal in content to the input, for every DataFrame. -/
theorem normalize_dataframe_empty_spec_identity (df : DataFrame) :
    normalize_dataframe df none none none none = df := rfl

/-- The `except MoexApiError` test: exactly the exception classes deriving
from `MoexApiError` (`exceptions.py`). -/
def isMoexApiError : PyExc → Bool
  | .moexParsingError _ => true
  | .moexConnectionError _ => true
  | .moexAuthError _ _ => true
  | .moexResponseError _ _ => true
  | .moexRateLimitError _ _ _ => true
  | _ => false

/-- `df[col] = scalar`: replaces the column when present (every row), else
appends it with the scalar broadcast to every row. -/
def dfAssign (df : DataFrame) (c : String) (v : PyVal) : DataFrame :=
  if c ∈ df.columns then
    ⟨df.columns,
     df.rows.map fun r => r.mapIdx fun i x =>
       if df.columns.get? i = some c then v else x,
     df.index⟩
  else
    ⟨df.columns ++ [c], df.rows.map fun r => r ++ [v], df.index⟩

/-- Column union of `pd.concat` (default `sort=False`): order of first
appearance. -/
def unionCols (dfs : List DataFrame) : List String :=
  dfs.foldl (fun acc df => acc ++ df.columns.filter fun c => c ∉ acc) []

/-- Reindexes one row from its source columns to the union columns, filling
missing columns with NaN (`vNull`). -/
def alignRow (srcCols allCols : List String) (row : List PyVal) : List PyVal :=
  allCols.map fun c =>
    match srcCols.findIdx? fun x => x == c with
    | some i => row.getD i .vNull
    | none => .vNull

/-- `pd.concat(dfs, ignore_index=True)`: union columns, aligned rows, index
reset. -/
def pdConcat (dfs : List DataFrame) : DataFrame :=
  ⟨unionCols dfs,
   dfs.flatMap fun df => df.rows.map (alignRow df.columns (unionCols dfs)),
   none⟩

/-- The empty frame returned when no ticker succeeded
(`endpoints.py:250-252`). -/
def emptySnapshotFrame : DataFrame :=
  ⟨["TICKER", "LAST", "CHANGE", "VOLTODAY", "OPEN", "LOW", "HIGH"], [], none⟩

/-- The per-ticker loop of `get_market_data_snapshot`
(`endpoints.py:229-247`): `client.get_market_data` is abstracted as `fetch`;
on success a `TICKER` column is added and the frame collected; a raised
`MoexApiError` is caught and the ticker skipped (the `print` is I/O only);
any other exception propagates. -/
def snapshotGo (fetch : String → Except PyExc DataFrame)
    (acc : List DataFrame) : List String → Except PyExc (List DataFrame)
  | [] => .ok acc
  | t :: ts =>
    match fetch t with
    | .ok df => snapshotGo fetch (acc ++ [dfAssign df "TICKER" (.vStr t)]) ts
    | .error e =>
      if isMoexApiError e then snapshotGo fetch acc ts else .error e

/-- `get_market_data_snapshot` (`endpoints.py:205-254`): iterate the tickers,
then concatenate, or return the fixed-column empty frame when nothing was
fetched. -/
def get_market_data_snapshot (fetch : String → Except PyExc DataFrame)
    (tickers : List String) : Except PyExc DataFrame :=
  match snapshotGo fetch [] tickers with
  | .error e => .error e
  | .ok [] => .ok emptySnapshotFrame
  | .ok dfs => .ok (pdConcat dfs)

/-- Whether a fetch outcome is a success or a caught-and-skipped
`MoexApiError` (the situation C9 quantifies over). -/
def fetchErrOk (r : Except PyExc DataFrame) : Bool :=
  match r with
  | .ok _ => true
  | .error e => isMoexApiError e

theorem snapshotGo_ok (fetch : String → Except PyExc DataFrame) :
    ∀ (tickers : List String) (acc : List DataFrame),
    (∀ t ∈ tickers, fetchErrOk (fetch t) = true) →
    snapshotGo fetch acc tickers = .ok (acc ++ tickers.filterMap fun t =>
      (fetch t).toOption.map fun df => dfAssign df "TICKER" (.vStr t)) := by
  intro tickers
  induction tickers with
  | nil => intro acc _; simp [snapshotGo]
  | cons t ts ih =>
    intro acc h
    have ht := h t (List.mem_cons_self t ts)
    have hts : ∀ x ∈ ts, fetchErrOk (fetch x) = true :=
      fun x hx => h x (List.mem_cons_of_mem t hx)
    cases hf : fetch t with
    | ok df =>
      simp only [snapshotGo, hf, ih (acc ++ [dfAssign df "TICKER" (.vStr t)]) hts,
        List.filterMap_cons, Except.toOption, Option.map_some']
      simp
    | error e =>
      rw [hf, fetchErrOk] at ht
      simp only [snapshotGo, hf, ht, if_pos, ite_true, ih acc hts,
        List.filterMap_cons, Except.toOption, Option.map_none']

/-- C9: for every list of tickers whose fetches either succeed or raise only
`MoexApiError`s, `get_market_data_snapshot` never propagates the error: it
returns the concatenation of the frames of the tickers that succeeded (each
with its `TICKER` column), or the fixed-column empty frame when none did. -/
theorem get_market_data_snapshot_skips_api_errors
    (fetch : String → Except PyExc DataFrame) (tickers : List String)
    (h : ∀ t ∈ tickers, fetchErrOk (fetch t) = true) :
    get_market_data_snapshot fetch tickers =
      .ok (let succ := tickers.filterMap fun t =>
             (fetch t).toOption.map fun df => dfAssign df "TICKER" (.vStr t)
           if succ.isEmpty then emptySnapshotFrame else pdConcat succ) := by
  rw [get_market_data_snapshot, snapshotGo_ok fetch tickers [] h]
  cases hsucc : tickers.filterMap fun t =>
      (fetch t).toOption.map fun df => dfAssign df "TICKER" (.vStr t) with
  | nil => simp [hsucc]
  | cons d ds => simp [hsucc]

/-- A fetch oracle for the witness: one ticker succeeds with a one-column
frame, the ticker `"FAIL"` raises `MoexResponseError`. -/
def snapshotFetchExample : String → Except PyExc DataFrame := fun t =>
  if t = "FAIL" then .error (.moexResponseError "API returned error response: 404" 404)
  else .ok ⟨["LAST"], [[.vInt 250]], none⟩

theorem get_market_data_snapshot_skips_api_errors_witness :
    (∀ t ∈ ["SBER", "FAIL"], fetchErrOk (snapshotFetchExample t) = true) ∧
    get_market_data_snapshot snapshotFetchExample ["SBER", "FAIL"] =
      .ok ⟨["LAST", "TICKER"], [[.vInt 250, .vStr "SBER"]], none⟩ := by
  have h : ∀ t ∈ ["SBER", "FAIL"], fetchErrOk (snapshotFetchExample t) = true := by
    decide
  exact ⟨h, (get_market_data_snapshot_skips_api_errors snapshotFetchExample
    ["SBER", "FAIL"] h).trans rfl⟩
